import Mathlib

/-!
Verification development for the `buildskill` document-analysis pipeline
(`src/buildskill/doc_analyzer.py`).  The Python code is shallowly embedded:
pure string processing is modelled on `List Char`, Python floats over the
score domain (integers 1..5 combined with the fixed twentieth-valued weights
and half-point rounding, where all arithmetic is exact) are modelled as `ℚ`,
the generative-model gateway is an oracle function, and the filesystem store
is an explicit map.  Each embedded definition cites the source symbol it
models.
-/

namespace BuildSkill

/-- Character list of a string literal (all text processing is on `List Char`). -/
def cs (s : String) : List Char := s.data

/-- Whitespace test modelling Python's `\s` / `str.strip` character class
(ASCII whitespace plus the no-break and ideographic spaces; the documents in
scope use no other Unicode whitespace). -/
def isWsChar (c : Char) : Bool :=
  c == ' ' || c == '\t' || c == '\n' || c == '\r' || c == '\x0b' || c == '\x0c' ||
  c == ' ' || c == '　'

/-- ASCII decimal digit test, modelling `\d` of the source's regexes (the
review texts in scope carry ASCII digits). -/
def isDigitChar (c : Char) : Bool := 48 ≤ c.toNat && c.toNat ≤ 57

/-- Numeric value of an ASCII digit character. -/
def digitVal (c : Char) : Nat := c.toNat - 48

/-- Digit-or-dot test, modelling the `[\d.]` class of the resume composite
regex in `analyze_doc_dir`. -/
def isDigitDot (c : Char) : Bool := isDigitChar c || c == '.'

/-- ASCII digit character for `n ≤ 9`. -/
def digitChar (n : Nat) : Char := Char.ofNat (48 + n)

/-- Tokens of the fixed regular patterns used by `_parse_review_scores` and
the resume composite regex: literal character, character class, `\s*`,
a one-digit capture `(\d)`, and a greedy one-or-more capture run such as
`([\d.]+)`. -/
inductive RTok where
  | lit (c : Char)
  | cls (cc : List Char)
  | ws
  | digitCap
  | runCap (ok : Char → Bool)

/-- Result of matching a pattern at a fixed position: success with the
captured characters, failure on a character mismatch, or failure by running
out of input (the distinction matters when reasoning about text
concatenation). -/
inductive MRes where
  | found (cap : List Char)
  | failMismatch
  | failEnd
deriving DecidableEq

/-- Match a token list at the start of the input, accumulating captures.
Greedy consumption of `\s*` and of capture runs is equivalent to the
backtracking regex semantics for the source's patterns because every token
following `ws` (a CJK literal, a colon class, `/`, `5` or a digit) is not
whitespace, and the character after a `[\d.]+` run (`/` or whitespace) is
not a digit or dot. -/
def tryMatch : List RTok → List Char → List Char → MRes
  | [], _, cap => .found cap
  | .lit _ :: _, [], _ => .failEnd
  | .lit c :: ts, x :: xs, cap =>
      if x = c then tryMatch ts xs cap else .failMismatch
  | .cls _ :: _, [], _ => .failEnd
  | .cls cc :: ts, x :: xs, cap =>
      if x ∈ cc then tryMatch ts xs cap else .failMismatch
  | .ws :: ts, s, cap => tryMatch ts (s.dropWhile isWsChar) cap
  | .digitCap :: _, [], _ => .failEnd
  | .digitCap :: ts, x :: xs, cap =>
      if isDigitChar x then tryMatch ts xs (cap ++ [x]) else .failMismatch
  | .runCap _ :: _, [], _ => .failEnd
  | .runCap p :: ts, x :: xs, cap =>
      if p x then tryMatch ts ((x :: xs).dropWhile p) (cap ++ (x :: xs).takeWhile p)
      else .failMismatch

/-- Leftmost search of a pattern in a text, modelling `re.search`: positions
are tried left to right (including the empty suffix) and the first position
where the pattern matches yields its capture. -/
def searchPat (pat : List RTok) : List Char → Option (List Char)
  | [] =>
    match tryMatch pat [] [] with
    | .found cap => some cap
    | _ => none
  | x :: xs =>
    match tryMatch pat (x :: xs) [] with
    | .found cap => some cap
    | _ => searchPat pat xs

/-- Literal token run for a fixed string piece of a pattern. -/
def litToks (s : List Char) : List RTok := s.map .lit

/-- The `[:：]` class of `_parse_review_scores`. -/
def colonCls : List Char := [':', '：']

/-- The `[-－]` class of `_parse_review_scores`. -/
def dashCls : List Char := ['-', '－']

/-- Pattern `维度{i+1}[-－]\s*{name}\s*[:：]\s*(\d)` (first, most specific
fallback of `_parse_review_scores`). -/
def pat1 (i : Nat) (name : List Char) : List RTok :=
  litToks (cs "维度") ++ [.lit (digitChar (i + 1)), .cls dashCls, .ws] ++
    litToks name ++ [.ws, .cls colonCls, .ws, .digitCap]

/-- Pattern `{name}\s*[:：]\s*(\d)` (second fallback). -/
def pat2 (name : List Char) : List RTok :=
  litToks name ++ [.ws, .cls colonCls, .ws, .digitCap]

/-- Pattern `维度{i+1}\s*[:：]\s*(\d)` (third fallback). -/
def pat3 (i : Nat) : List RTok :=
  litToks (cs "维度") ++ [.lit (digitChar (i + 1)), .ws, .cls colonCls, .ws, .digitCap]

/-- The exact value of the IEEE-754 binary64 double written `0.20` in the
source (the weights in `REVIEW_DIMENSIONS` are Python floats, not exact
decimals): `0.20 = 3602879701896397 / 2^54`. -/
def fp20 : ℚ := 3602879701896397 / 2 ^ 54

/-- The binary64 double written `0.15`: `5404319552844595 / 2^55`. -/
def fp15 : ℚ := 5404319552844595 / 2 ^ 55

/-- The binary64 double written `0.10`: `3602879701896397 / 2^55`. -/
def fp10 : ℚ := 3602879701896397 / 2 ^ 55

/-- The binary64 double written `0.05`: `3602879701896397 / 2^56`. -/
def fp05 : ℚ := 3602879701896397 / 2 ^ 56

/-- The eight review dimensions with their weights, from `REVIEW_DIMENSIONS`.
Each weight is the exact rational value of the binary64 float literal
(0.20, 0.15, 0.20, 0.15, 0.10, 0.10, 0.05, 0.05). -/
def REVIEW_DIMENSIONS : List (List Char × ℚ) :=
  [ (cs "事实准确性", fp20),
    (cs "来源可信度", fp15),
    (cs "分析深度与逻辑性", fp20),
    (cs "客观性与偏见控制", fp15),
    (cs "全面性与覆盖度", fp10),
    (cs "时效性与前瞻性", fp10),
    (cs "清晰度与结构化", fp05),
    (cs "实用价值与洞察力", fp05) ]

/-- Value stored for a dimension whose first matching pattern captured digit
list `cap`: in `_parse_review_scores`, `v = float(m.group(1))` is kept only
when `1 <= v <= 5`. -/
def toScore (cap : List Char) : Option ℚ :=
  match cap with
  | [d] =>
    let v : Nat := digitVal d
    if 1 ≤ v ∧ v ≤ 5 then some (v : ℚ) else none
  | _ => none

/-- Resolution of one dimension, modelling the inner loop of
`_parse_review_scores`: the three fallback patterns are tried in order and
the first pattern that matches ends the loop (`break`), its digit being kept
only when it lies in `[1, 5]`. -/
def resolveDim (i : Nat) (name : List Char) (text : List Char) : Option ℚ :=
  match searchPat (pat1 i name) text with
  | some cap => toScore cap
  | none =>
    match searchPat (pat2 name) text with
    | some cap => toScore cap
    | none =>
      match searchPat (pat3 i) text with
      | some cap => toScore cap
      | none => none

/-- Per-dimension scores extracted from a review text, in dimension order.
The Python dict keyed by the (pairwise distinct) dimension names is
represented positionally. -/
def dimScores (text : List Char) : List (Option ℚ) :=
  REVIEW_DIMENSIONS.enum.map fun p => resolveDim p.1 p.2.1 text

/-- Python's `round` builtin on our exact domain: round to the nearest
integer with ties to even (banker's rounding). -/
def pythonRound (q : ℚ) : ℤ :=
  if Int.fract q < 1/2 then ⌊q⌋
  else if 1/2 < Int.fract q then ⌊q⌋ + 1
  else if ⌊q⌋ % 2 = 0 then ⌊q⌋ else ⌊q⌋ + 1

/-- `_round_to_half`: `round(val * 2) / 2`. -/
def round_to_half (q : ℚ) : ℚ := (pythonRound (q * 2) : ℚ) / 2

/-- Round a nonnegative integer to 53 significant bits, ties to even — the
mantissa rounding of IEEE-754 binary64 round-to-nearest. -/
def round53 (n : ℕ) : ℕ :=
  let L := Nat.log2 n + 1
  if L ≤ 53 then n
  else
    let s := L - 53
    let d := n / 2 ^ s
    let r := n % 2 ^ s
    (if 2 ^ (s - 1) < r then d + 1
      else if r < 2 ^ (s - 1) then d
      else if d % 2 = 0 then d else d + 1) * 2 ^ s

/-- One binary64 floating-point rounding of a nonnegative value.  Every
value produced by the extractor's weighted sum is a dyadic rational with
denominator dividing `2^56` (products and sums of the weight doubles above
scaled by small integers), well inside the normal range of binary64, so
scaling by `2^56` makes it an integer and rounding that integer to 53
significant bits (ties to even) is exactly the double rounding the
hardware performs. -/
def fl53 (q : ℚ) : ℚ := (round53 (⌊q * 2 ^ 56⌋).toNat : ℚ) / 2 ^ 56

/-- Python's builtin `sum` over the generator of per-dimension products:
the running total starts at the int `0` (so `0 + t₁` is exact) and each
further `+` is one binary64 addition. -/
def floatSum (l : List ℚ) : ℚ :=
  match l with
  | [] => 0
  | t :: ts => ts.foldl (fun a b => fl53 (a + b)) t

/-- One step of the running float sum. -/
theorem floatSum_step (a b : ℚ) (l : List ℚ) :
    floatSum (a :: b :: l) = floatSum (fl53 (a + b) :: l) := rfl

theorem floatSum_single (a : ℚ) : floatSum [a] = a := rfl

/-- `weighted = sum(scores.get(n, 0) * w for n, w in REVIEW_DIMENSIONS)`
with the score map given positionally: each product `score * weight` is one
binary64 multiplication of the (exactly representable) score by the weight
double, and the sum accumulates in binary64. -/
def weightedSum (s : List (Option ℚ)) : ℚ :=
  floatSum ((s.zip (REVIEW_DIMENSIONS.map Prod.snd)).map fun p => fl53 (p.1.getD 0 * p.2))

/-- What the spec's words describe for the composite: the exact weighted
sum `Σ score × weight` with the exact decimal weights 0.20, 0.15, 0.20,
0.15, 0.10, 0.10, 0.05, 0.05.  Stated only to be compared against the
code's floating-point accumulation. -/
def spec_weighted_sum (s : List (Option ℚ)) : ℚ :=
  ((s.zip [1/5, 3/20, 1/5, 3/20, 1/10, 1/10, 1/20, 1/20]).map
    fun p => p.1.getD 0 * p.2).foldl (· + ·) 0

/-- `_parse_review_scores`: the score map together with the composite, which
is the rounded weighted sum when all eight dimensions resolved and the
sentinel `0.0` otherwise. -/
def parse_review_scores (text : List Char) : List (Option ℚ) × ℚ :=
  let s := dimScores text
  (s, if s.all Option.isSome then round_to_half (weightedSum s) else 0)

/-! ### Basic properties of the rounding helper -/

theorem pythonRound_floor_le (q : ℚ) : ⌊q⌋ ≤ pythonRound q := by
  unfold pythonRound
  split_ifs <;> omega

theorem pythonRound_le_floor_add_one (q : ℚ) : pythonRound q ≤ ⌊q⌋ + 1 := by
  unfold pythonRound
  split_ifs <;> omega

theorem abs_sub_pythonRound (q : ℚ) : |q - (pythonRound q : ℚ)| ≤ 1/2 := by
  have hq : (⌊q⌋ : ℚ) + Int.fract q = q := Int.floor_add_fract q
  have h0 : 0 ≤ Int.fract q := Int.fract_nonneg q
  have h1 : Int.fract q < 1 := Int.fract_lt_one q
  unfold pythonRound
  split_ifs with ha hb hc <;> rw [abs_le] <;> constructor <;> push_cast <;> linarith

theorem round_to_half_mul_half (q : ℚ) : ∃ k : ℤ, round_to_half q = (k : ℚ) / 2 :=
  ⟨pythonRound (q * 2), rfl⟩

theorem abs_sub_round_to_half (q : ℚ) : |q - round_to_half q| ≤ 1/4 := by
  have h := abs_sub_pythonRound (q * 2)
  have he : q - round_to_half q = (q * 2 - (pythonRound (q * 2) : ℚ)) / 2 := by
    unfold round_to_half; ring
  rw [he, abs_div]
  rw [abs_of_pos (by norm_num : (0:ℚ) < 2)]
  linarith

theorem round_to_half_ge_one (q : ℚ) (h : 1 ≤ q) : 1 ≤ round_to_half q := by
  have hfl : (2 : ℤ) ≤ ⌊q * 2⌋ := Int.le_floor.mpr (by push_cast; linarith)
  have hle : (2 : ℤ) ≤ pythonRound (q * 2) := le_trans hfl (pythonRound_floor_le (q * 2))
  have hle' : (2 : ℚ) ≤ (pythonRound (q * 2) : ℚ) := by exact_mod_cast hle
  unfold round_to_half
  linarith

theorem round_to_half_nonneg (q : ℚ) (h : 0 ≤ q) : 0 ≤ round_to_half q := by
  have hfl : (0 : ℤ) ≤ ⌊q * 2⌋ := Int.le_floor.mpr (by push_cast; linarith)
  have hle : (0 : ℤ) ≤ pythonRound (q * 2) := le_trans hfl (pythonRound_floor_le (q * 2))
  have hle' : (0 : ℚ) ≤ (pythonRound (q * 2) : ℚ) := by exact_mod_cast hle
  unfold round_to_half
  linarith

theorem pythonRound_le_of_le (q : ℚ) (b : ℤ) (h : q ≤ (b : ℚ)) : pythonRound q ≤ b := by
  have hq : (⌊q⌋ : ℚ) + Int.fract q = q := Int.floor_add_fract q
  have h0 : 0 ≤ Int.fract q := Int.fract_nonneg q
  have hfloor : ⌊q⌋ ≤ b := by
    have := Int.floor_le_floor h
    simpa using this
  unfold pythonRound
  split_ifs with ha hb
  · exact hfloor
  · have hlt : (⌊q⌋ : ℚ) < (b : ℚ) := by linarith
    have : ⌊q⌋ < b := by exact_mod_cast hlt
    omega
  · exact hfloor
  · have hc2 : Int.fract q = 1/2 := le_antisymm (not_lt.mp hb) (not_lt.mp ha)
    have hlt : (⌊q⌋ : ℚ) < (b : ℚ) := by linarith
    have : ⌊q⌋ < b := by exact_mod_cast hlt
    omega

theorem round_to_half_le_five (q : ℚ) (h : q ≤ 5) : round_to_half q ≤ 5 := by
  have hple : pythonRound (q * 2) ≤ 10 := pythonRound_le_of_le (q * 2) 10 (by push_cast; linarith)
  have hple' : (pythonRound (q * 2) : ℚ) ≤ 10 := by exact_mod_cast hple
  unfold round_to_half
  linarith

/-- `pythonRound q ≤ b` as soon as `q < b + 1/2`. -/
theorem pythonRound_le_of_lt_half (q : ℚ) (b : ℤ) (h : q < (b : ℚ) + 1/2) :
    pythonRound q ≤ b := by
  have hq := Int.floor_add_fract q
  have h0 := Int.fract_nonneg q
  have hfl : ⌊q⌋ ≤ b := Int.floor_le_iff.mpr (by push_cast; linarith)
  unfold pythonRound
  split_ifs with h1 h2 h3
  · exact hfl
  · have hlt : (⌊q⌋ : ℚ) < (b : ℚ) := by linarith
    have : ⌊q⌋ < b := by exact_mod_cast hlt
    omega
  · exact hfl
  · have hfr : Int.fract q = 1/2 := le_antisymm (not_lt.mp h2) (not_lt.mp h1)
    have hlt : (⌊q⌋ : ℚ) < (b : ℚ) := by linarith
    have : ⌊q⌋ < b := by exact_mod_cast hlt
    omega

/-- `b ≤ pythonRound q` as soon as `b - 1/2 < q`. -/
theorem pythonRound_ge_of_lt_half (q : ℚ) (b : ℤ) (h : (b : ℚ) - 1/2 < q) :
    b ≤ pythonRound q := by
  have hq := Int.floor_add_fract q
  have h0 := Int.fract_nonneg q
  have h1 := Int.fract_lt_one q
  unfold pythonRound
  split_ifs with ha hb hc
  · have hble : (b : ℚ) - 1 < (⌊q⌋ : ℚ) := by linarith
    have : b - 1 < ⌊q⌋ := by exact_mod_cast hble
    omega
  · have hble : (b : ℚ) - 1 < (⌊q⌋ : ℚ) + 1 := by linarith
    have : b - 1 < ⌊q⌋ + 1 := by exact_mod_cast hble
    omega
  · have hfr : Int.fract q = 1/2 := le_antisymm (not_lt.mp hb) (not_lt.mp ha)
    have hble : (b : ℚ) - 1 < (⌊q⌋ : ℚ) := by linarith
    have : b - 1 < ⌊q⌋ := by exact_mod_cast hble
    omega
  · have hfr : Int.fract q = 1/2 := le_antisymm (not_lt.mp hb) (not_lt.mp ha)
    have hble : (b : ℚ) - 1 < (⌊q⌋ : ℚ) := by linarith
    have : b - 1 < ⌊q⌋ := by exact_mod_cast hble
    omega

/-- `pythonRound` of any value strictly between `b - 1/2` and `b + 1/2`. -/
theorem pythonRound_eq_of_between (q : ℚ) (b : ℤ) (h1 : (b : ℚ) - 1/2 < q)
    (h2 : q < (b : ℚ) + 1/2) : pythonRound q = b :=
  le_antisymm (pythonRound_le_of_lt_half q b h2) (pythonRound_ge_of_lt_half q b h1)

/-- Rounding to 53 significant bits moves an integer by at most half an
ulp, which is at most `n / 2^53`. -/
theorem round53_err (n : ℕ) : round53 n ≤ n + n / 2 ^ 53 ∧ n ≤ round53 n + n / 2 ^ 53 := by
  unfold round53
  dsimp only
  by_cases hL : Nat.log2 n + 1 ≤ 53
  · rw [if_pos hL]
    omega
  · rw [if_neg hL]
    have hn0 : n ≠ 0 := by
      intro h
      rw [h] at hL
      simp [Nat.log2] at hL
    have hlow : 2 ^ Nat.log2 n ≤ n := Nat.log2_self_le hn0
    obtain ⟨t, ht⟩ : ∃ t, Nat.log2 n + 1 - 53 = t + 1 := ⟨Nat.log2 n - 53, by omega⟩
    rw [ht]
    simp only [Nat.add_sub_cancel]
    have hhalf : 2 ^ t ≤ n / 2 ^ 53 := by
      rw [Nat.le_div_iff_mul_le (by positivity)]
      calc 2 ^ t * 2 ^ 53 = 2 ^ (t + 53) := by rw [pow_add]
      _ ≤ 2 ^ Nat.log2 n := Nat.pow_le_pow_right (by norm_num) (by omega)
      _ ≤ n := hlow
    have hdm2 : n / 2 ^ (t + 1) * 2 ^ (t + 1) + n % 2 ^ (t + 1) = n := by
      rw [mul_comm]
      exact Nat.div_add_mod n (2 ^ (t + 1))
    have hmlt : n % 2 ^ (t + 1) < 2 ^ (t + 1) := Nat.mod_lt n (by positivity)
    have hP : 2 ^ (t + 1) = 2 ^ t + 2 ^ t := by rw [pow_succ]; ring
    have hd1 : (n / 2 ^ (t + 1) + 1) * 2 ^ (t + 1) =
        n / 2 ^ (t + 1) * 2 ^ (t + 1) + 2 ^ (t + 1) := by ring
    split_ifs <;> constructor <;> omega

theorem fl53_nonneg (q : ℚ) : 0 ≤ fl53 q := by
  unfold fl53
  positivity

/-- One binary64 rounding of a nonnegative value has relative error at most
`2^-53` plus the `2^-56` quantisation of the model's fixed scale. -/
theorem fl53_err (q : ℚ) (h : 0 ≤ q) : |fl53 q - q| ≤ q / 2 ^ 53 + 1 / 2 ^ 56 := by
  set n : ℕ := (⌊q * 2 ^ 56⌋).toNat with hn
  have h0 : (0 : ℤ) ≤ ⌊q * 2 ^ 56⌋ := Int.le_floor.mpr (by positivity)
  have hfl : ((n : ℤ) : ℚ) ≤ q * 2 ^ 56 := by
    rw [hn, Int.toNat_of_nonneg h0]
    exact Int.floor_le _
  have hfu : q * 2 ^ 56 < ((n : ℤ) : ℚ) + 1 := by
    rw [hn, Int.toNat_of_nonneg h0]
    exact Int.lt_floor_add_one _
  obtain ⟨he1, he2⟩ := round53_err n
  have hc1 : ((round53 n : ℕ) : ℚ) ≤ (n : ℚ) + ((n / 2 ^ 53 : ℕ) : ℚ) := by
    exact_mod_cast he1
  have hc2 : ((n : ℕ) : ℚ) ≤ ((round53 n : ℕ) : ℚ) + ((n / 2 ^ 53 : ℕ) : ℚ) := by
    exact_mod_cast he2
  have hdiv : ((n / 2 ^ 53 : ℕ) : ℚ) ≤ (n : ℚ) / 2 ^ 53 := Nat.cast_div_le
  have hq56 : (n : ℚ) ≤ q * 2 ^ 56 := by exact_mod_cast hfl
  have hq56' : q * 2 ^ 56 < (n : ℚ) + 1 := by exact_mod_cast hfu
  have hout : fl53 q = ((round53 n : ℕ) : ℚ) / 2 ^ 56 := rfl
  rw [hout, abs_le]
  constructor
  · linarith [hdiv, hc2, hq56, hq56']
  · linarith [hdiv, hc1, hq56, hq56']

/-- Error of one rounded product `score * weight-double` against the exact
`score * decimal-weight`. -/
theorem floatTerm_err (n : ℕ) (w wd : ℚ) (h5 : n ≤ 5)
    (hw0 : 0 ≤ w) (hwu : w ≤ 1/4) (hwd : |w - wd| ≤ 1/2^56) :
    |fl53 ((n : ℚ) * w) - (n : ℚ) * wd| ≤ 1/2^51 := by
  have hn0 : (0 : ℚ) ≤ (n : ℚ) := by positivity
  have hn5 : (n : ℚ) ≤ 5 := by exact_mod_cast h5
  have hq0 : 0 ≤ (n : ℚ) * w := by positivity
  have herr := fl53_err _ hq0
  have hu : (n : ℚ) * w ≤ 5/4 := by nlinarith
  have habs : |(n : ℚ) * w - (n : ℚ) * wd| ≤ 5/2^56 := by
    rw [show (n : ℚ) * w - (n : ℚ) * wd = (n : ℚ) * (w - wd) by ring, abs_mul,
      abs_of_nonneg hn0]
    calc (n : ℚ) * |w - wd| ≤ 5 * (1/2^56) :=
          mul_le_mul hn5 hwd (abs_nonneg _) (by norm_num)
    _ = 5/2^56 := by norm_num
  calc |fl53 ((n : ℚ) * w) - (n : ℚ) * wd|
      ≤ |fl53 ((n : ℚ) * w) - (n : ℚ) * w| + |(n : ℚ) * w - (n : ℚ) * wd| :=
        abs_sub_le _ _ _
  _ ≤ ((n : ℚ) * w / 2^53 + 1/2^56) + 5/2^56 := add_le_add herr habs
  _ ≤ 1/2^51 := by linarith

/-- Error of one binary64 addition in the running sum. -/
theorem floatAdd_err (a b A B ea eb : ℚ) (ha : |a - A| ≤ ea) (hb : |b - B| ≤ eb)
    (ha0 : 0 ≤ a) (hb0 : 0 ≤ b) (hAB : A + B ≤ 5) (hea : ea + eb ≤ 1) :
    |fl53 (a + b) - (A + B)| ≤ ea + eb + 1/2^50 := by
  have hab0 : 0 ≤ a + b := by positivity
  have herr := fl53_err _ hab0
  obtain ⟨ha1, ha2⟩ := abs_le.mp ha
  obtain ⟨hb1, hb2⟩ := abs_le.mp hb
  have habab : |(a + b) - (A + B)| ≤ ea + eb := by
    rw [abs_le]
    constructor <;> linarith
  calc |fl53 (a + b) - (A + B)|
      ≤ |fl53 (a + b) - (a + b)| + |(a + b) - (A + B)| := abs_sub_le _ _ _
  _ ≤ ((a + b)/2^53 + 1/2^56) + (ea + eb) := add_le_add herr habab
  _ ≤ ea + eb + 1/2^50 := by linarith

/-- What the spec's words describe for the rounding helper: round-half-UP to
the nearest multiple of 0.5, i.e. `⌊2q + 1/2⌋ / 2`.  Stated only to be
compared against the code's `_round_to_half`. -/
def spec_round_half_up (q : ℚ) : ℚ := (⌊q * 2 + 1/2⌋ : ℚ) / 2

/-! ### Range of extracted scores -/

theorem toScore_range {cap : List Char} {v : ℚ} (h : toScore cap = some v) :
    ∃ n : ℕ, 1 ≤ n ∧ n ≤ 5 ∧ v = (n : ℚ) := by
  rcases cap with _ | ⟨d, _ | ⟨e, tl⟩⟩ <;> simp [toScore] at h
  rcases h with ⟨⟨h1, h5⟩, hv⟩
  exact ⟨digitVal d, h1, h5, hv.symm⟩

theorem resolveDim_range {i : Nat} {name text : List Char} {v : ℚ}
    (h : resolveDim i name text = some v) : ∃ n : ℕ, 1 ≤ n ∧ n ≤ 5 ∧ v = (n : ℚ) := by
  unfold resolveDim at h
  repeat' split at h
  all_goals first
    | exact toScore_range h
    | simp at h

/-- C4 counterexample input: at 4.25 (where `4.25 * 2 = 8.5` is an exact
tie), Python's `round` goes to the even integer 8, so the code returns 4.0
while the claimed round-half-up arithmetic would return 4.5. -/
theorem c4_counterexample :
    round_to_half (17/4) = 4 ∧ spec_round_half_up (17/4) = 9/2 ∧
    round_to_half (17/4) ≠ spec_round_half_up (17/4) := by
  have h1 : round_to_half (17/4) = 4 := by
    norm_num [round_to_half, pythonRound, Int.fract]
  have h2 : spec_round_half_up (17/4) = 9/2 := by
    norm_num [spec_round_half_up]
  refine ⟨h1, h2, ?_⟩
  rw [h1, h2]
  norm_num

/-- C4 (amended): `_round_to_half` rounds to the nearest multiple of 0.5 by
`round(x*2)/2` where `round` is Python's round-half-to-EVEN: the result is
always a multiple of 0.5 within 1/4 of the input, an exact tie
`(2m+1)/4` goes to the half-point with even numerator, and in particular
4.3 ↦ 4.5 and 4.2 ↦ 4.0. -/
theorem c4_round_to_half_half_even :
    (∀ q : ℚ, ∃ k : ℤ, round_to_half q = (k : ℚ) / 2) ∧
    (∀ q : ℚ, |q - round_to_half q| ≤ 1/4) ∧
    (∀ m : ℤ, round_to_half ((2 * (m : ℚ) + 1) / 4) =
      if m % 2 = 0 then (m : ℚ) / 2 else ((m : ℚ) + 1) / 2) ∧
    round_to_half (43/10) = 9/2 ∧ round_to_half (21/5) = 4 := by
  refine ⟨round_to_half_mul_half, abs_sub_round_to_half, ?_, ?_, ?_⟩
  · intro m
    have h2 : ((2 * (m : ℚ) + 1) / 4) * 2 = 1/2 + (m : ℚ) := by ring
    have hfl : ⌊(1:ℚ)/2 + (m : ℚ)⌋ = m := by
      rw [Int.floor_add_int]
      norm_num
    have hfr : Int.fract ((1:ℚ)/2 + (m : ℚ)) = 1/2 := by
      rw [Int.fract, hfl]
      ring
    unfold round_to_half pythonRound
    rw [h2, hfr, hfl]
    rw [if_neg (by norm_num), if_neg (by norm_num)]
    split_ifs <;> push_cast <;> ring
  · norm_num [round_to_half, pythonRound, Int.fract]
  · norm_num [round_to_half, pythonRound, Int.fract]

/-! ### C1: composite-score policy of the extractor -/

theorem dimScores_explicit (t : List Char) :
    dimScores t = [resolveDim 0 (cs "事实准确性") t, resolveDim 1 (cs "来源可信度") t,
      resolveDim 2 (cs "分析深度与逻辑性") t, resolveDim 3 (cs "客观性与偏见控制") t,
      resolveDim 4 (cs "全面性与覆盖度") t, resolveDim 5 (cs "时效性与前瞻性") t,
      resolveDim 6 (cs "清晰度与结构化") t, resolveDim 7 (cs "实用价值与洞察力") t] := rfl

/-- The binary64 weighted sum of eight integer scores in `[0, 5]` stays
within `2^-46` of the exact decimal weighted sum. -/
theorem weightedSum_float_err (n0 n1 n2 n3 n4 n5 n6 n7 : ℕ)
    (h0 : n0 ≤ 5) (h1 : n1 ≤ 5) (h2 : n2 ≤ 5) (h3 : n3 ≤ 5)
    (h4 : n4 ≤ 5) (h5 : n5 ≤ 5) (h6 : n6 ≤ 5) (h7 : n7 ≤ 5) :
    |weightedSum [some (n0 : ℚ), some (n1 : ℚ), some (n2 : ℚ), some (n3 : ℚ),
        some (n4 : ℚ), some (n5 : ℚ), some (n6 : ℚ), some (n7 : ℚ)] -
      ((n0 : ℚ) * (1/5) + (n1 : ℚ) * (3/20) + (n2 : ℚ) * (1/5) + (n3 : ℚ) * (3/20) + (n4 : ℚ) * (1/10) + (n5 : ℚ) * (1/10) + (n6 : ℚ) * (1/20) + (n7 : ℚ) * (1/20))| ≤ 1/2^46 ∧
    0 ≤ weightedSum [some (n0 : ℚ), some (n1 : ℚ), some (n2 : ℚ), some (n3 : ℚ),
        some (n4 : ℚ), some (n5 : ℚ), some (n6 : ℚ), some (n7 : ℚ)] := by
  have hc0 : (n0 : ℚ) ≤ 5 := by exact_mod_cast h0
  have hc1 : (n1 : ℚ) ≤ 5 := by exact_mod_cast h1
  have hc2 : (n2 : ℚ) ≤ 5 := by exact_mod_cast h2
  have hc3 : (n3 : ℚ) ≤ 5 := by exact_mod_cast h3
  have hc4 : (n4 : ℚ) ≤ 5 := by exact_mod_cast h4
  have hc5 : (n5 : ℚ) ≤ 5 := by exact_mod_cast h5
  have hc6 : (n6 : ℚ) ≤ 5 := by exact_mod_cast h6
  have hc7 : (n7 : ℚ) ≤ 5 := by exact_mod_cast h7
  have hp0 : (0 : ℚ) ≤ (n0 : ℚ) := by positivity
  have hp1 : (0 : ℚ) ≤ (n1 : ℚ) := by positivity
  have hp2 : (0 : ℚ) ≤ (n2 : ℚ) := by positivity
  have hp3 : (0 : ℚ) ≤ (n3 : ℚ) := by positivity
  have hp4 : (0 : ℚ) ≤ (n4 : ℚ) := by positivity
  have hp5 : (0 : ℚ) ≤ (n5 : ℚ) := by positivity
  have hp6 : (0 : ℚ) ≤ (n6 : ℚ) := by positivity
  have hp7 : (0 : ℚ) ≤ (n7 : ℚ) := by positivity
  have hX : weightedSum [some (n0 : ℚ), some (n1 : ℚ), some (n2 : ℚ), some (n3 : ℚ),
      some (n4 : ℚ), some (n5 : ℚ), some (n6 : ℚ), some (n7 : ℚ)] =
      fl53 (fl53 (fl53 (fl53 (fl53 (fl53 (fl53 (fl53 ((n0 : ℚ) * fp20) + fl53 ((n1 : ℚ) * fp15)) + fl53 ((n2 : ℚ) * fp20)) + fl53 ((n3 : ℚ) * fp15)) + fl53 ((n4 : ℚ) * fp10)) + fl53 ((n5 : ℚ) * fp10)) + fl53 ((n6 : ℚ) * fp05)) + fl53 ((n7 : ℚ) * fp05)) := rfl
  have ht0 := floatTerm_err n0 fp20 (1/5) h0 (by norm_num [fp20])
    (by norm_num [fp20]) (by rw [abs_le]; constructor <;> norm_num [fp20])
  have ht1 := floatTerm_err n1 fp15 (3/20) h1 (by norm_num [fp15])
    (by norm_num [fp15]) (by rw [abs_le]; constructor <;> norm_num [fp15])
  have ht2 := floatTerm_err n2 fp20 (1/5) h2 (by norm_num [fp20])
    (by norm_num [fp20]) (by rw [abs_le]; constructor <;> norm_num [fp20])
  have ht3 := floatTerm_err n3 fp15 (3/20) h3 (by norm_num [fp15])
    (by norm_num [fp15]) (by rw [abs_le]; constructor <;> norm_num [fp15])
  have ht4 := floatTerm_err n4 fp10 (1/10) h4 (by norm_num [fp10])
    (by norm_num [fp10]) (by rw [abs_le]; constructor <;> norm_num [fp10])
  have ht5 := floatTerm_err n5 fp10 (1/10) h5 (by norm_num [fp10])
    (by norm_num [fp10]) (by rw [abs_le]; constructor <;> norm_num [fp10])
  have ht6 := floatTerm_err n6 fp05 (1/20) h6 (by norm_num [fp05])
    (by norm_num [fp05]) (by rw [abs_le]; constructor <;> norm_num [fp05])
  have ht7 := floatTerm_err n7 fp05 (1/20) h7 (by norm_num [fp05])
    (by norm_num [fp05]) (by rw [abs_le]; constructor <;> norm_num [fp05])
  have hz0 : 0 ≤ fl53 ((n0 : ℚ) * fp20) := fl53_nonneg _
  have hz1 : 0 ≤ fl53 ((n1 : ℚ) * fp15) := fl53_nonneg _
  have hz2 : 0 ≤ fl53 ((n2 : ℚ) * fp20) := fl53_nonneg _
  have hz3 : 0 ≤ fl53 ((n3 : ℚ) * fp15) := fl53_nonneg _
  have hz4 : 0 ≤ fl53 ((n4 : ℚ) * fp10) := fl53_nonneg _
  have hz5 : 0 ≤ fl53 ((n5 : ℚ) * fp10) := fl53_nonneg _
  have hz6 : 0 ≤ fl53 ((n6 : ℚ) * fp05) := fl53_nonneg _
  have hz7 : 0 ≤ fl53 ((n7 : ℚ) * fp05) := fl53_nonneg _
  have hs1 : |fl53 (fl53 ((n0 : ℚ) * fp20) + fl53 ((n1 : ℚ) * fp15)) - ((n0 : ℚ) * (1/5) + (n1 : ℚ) * (3/20))| ≤ 4/2^51 :=
    le_trans (floatAdd_err _ _ _ _ _ _ ht0 ht1 hz0 hz1 (by linarith) (by norm_num))
      (by norm_num)
  have hzs1 : 0 ≤ fl53 (fl53 ((n0 : ℚ) * fp20) + fl53 ((n1 : ℚ) * fp15)) := fl53_nonneg _
  have hs2 : |fl53 (fl53 (fl53 ((n0 : ℚ) * fp20) + fl53 ((n1 : ℚ) * fp15)) + fl53 ((n2 : ℚ) * fp20)) - ((n0 : ℚ) * (1/5) + (n1 : ℚ) * (3/20) + (n2 : ℚ) * (1/5))| ≤ 7/2^51 :=
    le_trans (floatAdd_err (fl53 (fl53 ((n0 : ℚ) * fp20) + fl53 ((n1 : ℚ) * fp15))) (fl53 ((n2 : ℚ) * fp20)) ((n0 : ℚ) * (1/5) + (n1 : ℚ) * (3/20)) ((n2 : ℚ) * (1/5))
      (4/2^51) (1/2^51) hs1 ht2 hzs1 hz2 (by linarith) (by norm_num))
      (by norm_num)
  have hzs2 : 0 ≤ fl53 (fl53 (fl53 ((n0 : ℚ) * fp20) + fl53 ((n1 : ℚ) * fp15)) + fl53 ((n2 : ℚ) * fp20)) := fl53_nonneg _
  have hs3 : |fl53 (fl53 (fl53 (fl53 ((n0 : ℚ) * fp20) + fl53 ((n1 : ℚ) * fp15)) + fl53 ((n2 : ℚ) * fp20)) + fl53 ((n3 : ℚ) * fp15)) - ((n0 : ℚ) * (1/5) + (n1 : ℚ) * (3/20) + (n2 : ℚ) * (1/5) + (n3 : ℚ) * (3/20))| ≤ 10/2^51 :=
    le_trans (floatAdd_err (fl53 (fl53 (fl53 ((n0 : ℚ) * fp20) + fl53 ((n1 : ℚ) * fp15)) + fl53 ((n2 : ℚ) * fp20))) (fl53 ((n3 : ℚ) * fp15)) ((n0 : ℚ) * (1/5) + (n1 : ℚ) * (3/20) + (n2 : ℚ) * (1/5)) ((n3 : ℚ) * (3/20))
      (7/2^51) (1/2^51) hs2 ht3 hzs2 hz3 (by linarith) (by norm_num))
      (by norm_num)
  have hzs3 : 0 ≤ fl53 (fl53 (fl53 (fl53 ((n0 : ℚ) * fp20) + fl53 ((n1 : ℚ) * fp15)) + fl53 ((n2 : ℚ) * fp20)) + fl53 ((n3 : ℚ) * fp15)) := fl53_nonneg _
  have hs4 : |fl53 (fl53 (fl53 (fl53 (fl53 ((n0 : ℚ) * fp20) + fl53 ((n1 : ℚ) * fp15)) + fl53 ((n2 : ℚ) * fp20)) + fl53 ((n3 : ℚ) * fp15)) + fl53 ((n4 : ℚ) * fp10)) - ((n0 : ℚ) * (1/5) + (n1 : ℚ) * (3/20) + (n2 : ℚ) * (1/5) + (n3 : ℚ) * (3/20) + (n4 : ℚ) * (1/10))| ≤ 13/2^51 :=
    le_trans (floatAdd_err (fl53 (fl53 (fl53 (fl53 ((n0 : ℚ) * fp20) + fl53 ((n1 : ℚ) * fp15)) + fl53 ((n2 : ℚ) * fp20)) + fl53 ((n3 : ℚ) * fp15))) (fl53 ((n4 : ℚ) * fp10)) ((n0 : ℚ) * (1/5) + (n1 : ℚ) * (3/20) + (n2 : ℚ) * (1/5) + (n3 : ℚ) * (3/20)) ((n4 : ℚ) * (1/10))
      (10/2^51) (1/2^51) hs3 ht4 hzs3 hz4 (by linarith) (by norm_num))
      (by norm_num)
  have hzs4 : 0 ≤ fl53 (fl53 (fl53 (fl53 (fl53 ((n0 : ℚ) * fp20) + fl53 ((n1 : ℚ) * fp15)) + fl53 ((n2 : ℚ) * fp20)) + fl53 ((n3 : ℚ) * fp15)) + fl53 ((n4 : ℚ) * fp10)) := fl53_nonneg _
  have hs5 : |fl53 (fl53 (fl53 (fl53 (fl53 (fl53 ((n0 : ℚ) * fp20) + fl53 ((n1 : ℚ) * fp15)) + fl53 ((n2 : ℚ) * fp20)) + fl53 ((n3 : ℚ) * fp15)) + fl53 ((n4 : ℚ) * fp10)) + fl53 ((n5 : ℚ) * fp10)) - ((n0 : ℚ) * (1/5) + (n1 : ℚ) * (3/20) + (n2 : ℚ) * (1/5) + (n3 : ℚ) * (3/20) + (n4 : ℚ) * (1/10) + (n5 : ℚ) * (1/10))| ≤ 16/2^51 :=
    le_trans (floatAdd_err (fl53 (fl53 (fl53 (fl53 (fl53 ((n0 : ℚ) * fp20) + fl53 ((n1 : ℚ) * fp15)) + fl53 ((n2 : ℚ) * fp20)) + fl53 ((n3 : ℚ) * fp15)) + fl53 ((n4 : ℚ) * fp10))) (fl53 ((n5 : ℚ) * fp10)) ((n0 : ℚ) * (1/5) + (n1 : ℚ) * (3/20) + (n2 : ℚ) * (1/5) + (n3 : ℚ) * (3/20) + (n4 : ℚ) * (1/10)) ((n5 : ℚ) * (1/10))
      (13/2^51) (1/2^51) hs4 ht5 hzs4 hz5 (by linarith) (by norm_num))
      (by norm_num)
  have hzs5 : 0 ≤ fl53 (fl53 (fl53 (fl53 (fl53 (fl53 ((n0 : ℚ) * fp20) + fl53 ((n1 : ℚ) * fp15)) + fl53 ((n2 : ℚ) * fp20)) + fl53 ((n3 : ℚ) * fp15)) + fl53 ((n4 : ℚ) * fp10)) + fl53 ((n5 : ℚ) * fp10)) := fl53_nonneg _
  have hs6 : |fl53 (fl53 (fl53 (fl53 (fl53 (fl53 (fl53 ((n0 : ℚ) * fp20) + fl53 ((n1 : ℚ) * fp15)) + fl53 ((n2 : ℚ) * fp20)) + fl53 ((n3 : ℚ) * fp15)) + fl53 ((n4 : ℚ) * fp10)) + fl53 ((n5 : ℚ) * fp10)) + fl53 ((n6 : ℚ) * fp05)) - ((n0 : ℚ) * (1/5) + (n1 : ℚ) * (3/20) + (n2 : ℚ) * (1/5) + (n3 : ℚ) * (3/20) + (n4 : ℚ) * (1/10) + (n5 : ℚ) * (1/10) + (n6 : ℚ) * (1/20))| ≤ 19/2^51 :=
    le_trans (floatAdd_err (fl53 (fl53 (fl53 (fl53 (fl53 (fl53 ((n0 : ℚ) * fp20) + fl53 ((n1 : ℚ) * fp15)) + fl53 ((n2 : ℚ) * fp20)) + fl53 ((n3 : ℚ) * fp15)) + fl53 ((n4 : ℚ) * fp10)) + fl53 ((n5 : ℚ) * fp10))) (fl53 ((n6 : ℚ) * fp05)) ((n0 : ℚ) * (1/5) + (n1 : ℚ) * (3/20) + (n2 : ℚ) * (1/5) + (n3 : ℚ) * (3/20) + (n4 : ℚ) * (1/10) + (n5 : ℚ) * (1/10)) ((n6 : ℚ) * (1/20))
      (16/2^51) (1/2^51) hs5 ht6 hzs5 hz6 (by linarith) (by norm_num))
      (by norm_num)
  have hzs6 : 0 ≤ fl53 (fl53 (fl53 (fl53 (fl53 (fl53 (fl53 ((n0 : ℚ) * fp20) + fl53 ((n1 : ℚ) * fp15)) + fl53 ((n2 : ℚ) * fp20)) + fl53 ((n3 : ℚ) * fp15)) + fl53 ((n4 : ℚ) * fp10)) + fl53 ((n5 : ℚ) * fp10)) + fl53 ((n6 : ℚ) * fp05)) := fl53_nonneg _
  have hs7 : |fl53 (fl53 (fl53 (fl53 (fl53 (fl53 (fl53 (fl53 ((n0 : ℚ) * fp20) + fl53 ((n1 : ℚ) * fp15)) + fl53 ((n2 : ℚ) * fp20)) + fl53 ((n3 : ℚ) * fp15)) + fl53 ((n4 : ℚ) * fp10)) + fl53 ((n5 : ℚ) * fp10)) + fl53 ((n6 : ℚ) * fp05)) + fl53 ((n7 : ℚ) * fp05)) - ((n0 : ℚ) * (1/5) + (n1 : ℚ) * (3/20) + (n2 : ℚ) * (1/5) + (n3 : ℚ) * (3/20) + (n4 : ℚ) * (1/10) + (n5 : ℚ) * (1/10) + (n6 : ℚ) * (1/20) + (n7 : ℚ) * (1/20))| ≤ 22/2^51 :=
    le_trans (floatAdd_err (fl53 (fl53 (fl53 (fl53 (fl53 (fl53 (fl53 ((n0 : ℚ) * fp20) + fl53 ((n1 : ℚ) * fp15)) + fl53 ((n2 : ℚ) * fp20)) + fl53 ((n3 : ℚ) * fp15)) + fl53 ((n4 : ℚ) * fp10)) + fl53 ((n5 : ℚ) * fp10)) + fl53 ((n6 : ℚ) * fp05))) (fl53 ((n7 : ℚ) * fp05)) ((n0 : ℚ) * (1/5) + (n1 : ℚ) * (3/20) + (n2 : ℚ) * (1/5) + (n3 : ℚ) * (3/20) + (n4 : ℚ) * (1/10) + (n5 : ℚ) * (1/10) + (n6 : ℚ) * (1/20)) ((n7 : ℚ) * (1/20))
      (19/2^51) (1/2^51) hs6 ht7 hzs6 hz7 (by linarith) (by norm_num))
      (by norm_num)
  have hzs7 : 0 ≤ fl53 (fl53 (fl53 (fl53 (fl53 (fl53 (fl53 (fl53 ((n0 : ℚ) * fp20) + fl53 ((n1 : ℚ) * fp15)) + fl53 ((n2 : ℚ) * fp20)) + fl53 ((n3 : ℚ) * fp15)) + fl53 ((n4 : ℚ) * fp10)) + fl53 ((n5 : ℚ) * fp10)) + fl53 ((n6 : ℚ) * fp05)) + fl53 ((n7 : ℚ) * fp05)) := fl53_nonneg _
  rw [hX]
  exact ⟨le_trans hs7 (by norm_num), hzs7⟩

theorem parse_snd_eq_of_all (t : List Char)
    (hall : (dimScores t).all Option.isSome = true) :
    (parse_review_scores t).2 = round_to_half (weightedSum (dimScores t)) := by
  simp [parse_review_scores, hall]

theorem parse_snd_eq_zero_of_not_all (t : List Char)
    (hnall : (dimScores t).all Option.isSome ≠ true) :
    (parse_review_scores t).2 = 0 := by
  have hf : (dimScores t).all Option.isSome = false := by
    cases h : (dimScores t).all Option.isSome
    · rfl
    · exact absurd h hnall
  simp [parse_review_scores, hf]

/-- Full analysis of the composite in the all-resolved case: it is the
half-rounding of the binary64 weighted sum, lies in `{1, 3/2, …, 5}`, is
within `1/4` of the exact decimal weighted sum, and — whenever that exact
sum is not an exact tie (an odd multiple of `1/4`) — coincides with the
half-rounding of the exact sum. -/
theorem composite_policy_all (t : List Char)
    (hall : (dimScores t).all Option.isSome = true) :
    (parse_review_scores t).2 = round_to_half (weightedSum (dimScores t)) ∧
    |spec_weighted_sum (dimScores t) - (parse_review_scores t).2| ≤ 1/4 ∧
    (∃ k : ℕ, 2 ≤ k ∧ k ≤ 10 ∧ (parse_review_scores t).2 = (k : ℚ) / 2) ∧
    ((¬ ∃ m : ℤ, spec_weighted_sum (dimScores t) = (2 * (m : ℚ) + 1) / 4) →
      (parse_review_scores t).2 = round_to_half (spec_weighted_sum (dimScores t))) := by
  have hcomp := parse_snd_eq_of_all t hall
  have hx := dimScores_explicit t
  rw [hx] at hall
  simp only [List.all_cons, List.all_nil, Bool.and_eq_true, and_true] at hall
  obtain ⟨h0, h1, h2, h3, h4, h5, h6, h7⟩ := hall
  obtain ⟨v0, hv0⟩ := Option.isSome_iff_exists.mp h0
  obtain ⟨v1, hv1⟩ := Option.isSome_iff_exists.mp h1
  obtain ⟨v2, hv2⟩ := Option.isSome_iff_exists.mp h2
  obtain ⟨v3, hv3⟩ := Option.isSome_iff_exists.mp h3
  obtain ⟨v4, hv4⟩ := Option.isSome_iff_exists.mp h4
  obtain ⟨v5, hv5⟩ := Option.isSome_iff_exists.mp h5
  obtain ⟨v6, hv6⟩ := Option.isSome_iff_exists.mp h6
  obtain ⟨v7, hv7⟩ := Option.isSome_iff_exists.mp h7
  obtain ⟨n0, ha0, hb0, rfl⟩ := resolveDim_range hv0
  obtain ⟨n1, ha1, hb1, rfl⟩ := resolveDim_range hv1
  obtain ⟨n2, ha2, hb2, rfl⟩ := resolveDim_range hv2
  obtain ⟨n3, ha3, hb3, rfl⟩ := resolveDim_range hv3
  obtain ⟨n4, ha4, hb4, rfl⟩ := resolveDim_range hv4
  obtain ⟨n5, ha5, hb5, rfl⟩ := resolveDim_range hv5
  obtain ⟨n6, ha6, hb6, rfl⟩ := resolveDim_range hv6
  obtain ⟨n7, ha7, hb7, rfl⟩ := resolveDim_range hv7
  have hlist : dimScores t = [some ((n0 : ℕ) : ℚ), some ((n1 : ℕ) : ℚ),
      some ((n2 : ℕ) : ℚ), some ((n3 : ℕ) : ℚ), some ((n4 : ℕ) : ℚ),
      some ((n5 : ℕ) : ℚ), some ((n6 : ℕ) : ℚ), some ((n7 : ℕ) : ℚ)] := by
    rw [hx, hv0, hv1, hv2, hv3, hv4, hv5, hv6, hv7]
  obtain ⟨herr8, hX0⟩ :=
    weightedSum_float_err n0 n1 n2 n3 n4 n5 n6 n7 hb0 hb1 hb2 hb3 hb4 hb5 hb6 hb7
  rw [← hlist] at herr8 hX0
  have hspec : spec_weighted_sum (dimScores t) =
      ((4*n0 + 3*n1 + 4*n2 + 3*n3 + 2*n4 + 2*n5 + n6 + n7 : ℕ) : ℚ) / 20 := by
    rw [hlist]
    simp [spec_weighted_sum]
    push_cast
    ring
  have hEM : (n0 : ℚ) * (1/5) + (n1 : ℚ) * (3/20) + (n2 : ℚ) * (1/5) +
      (n3 : ℚ) * (3/20) + (n4 : ℚ) * (1/10) + (n5 : ℚ) * (1/10) +
      (n6 : ℚ) * (1/20) + (n7 : ℚ) * (1/20) =
      ((4*n0 + 3*n1 + 4*n2 + 3*n3 + 2*n4 + 2*n5 + n6 + n7 : ℕ) : ℚ) / 20 := by
    push_cast
    ring
  rw [hEM] at herr8
  set M := 4*n0 + 3*n1 + 4*n2 + 3*n3 + 2*n4 + 2*n5 + n6 + n7 with hMdef
  have hM20 : 20 ≤ M := by omega
  have hM100 : M ≤ 100 := by omega
  have hMl : (1 : ℚ) ≤ (M : ℚ) / 20 := by
    have h20 : (20 : ℚ) ≤ (M : ℚ) := by exact_mod_cast hM20
    linarith
  have hMu : (M : ℚ) / 20 ≤ 5 := by
    have h100 : (M : ℚ) ≤ 100 := by exact_mod_cast hM100
    linarith
  obtain ⟨hXl, hXu⟩ := abs_le.mp herr8
  have hrth : round_to_half (weightedSum (dimScores t)) =
      ((pythonRound (weightedSum (dimScores t) * 2) : ℤ) : ℚ) / 2 := rfl
  have hcv : (parse_review_scores t).2 =
      ((pythonRound (weightedSum (dimScores t) * 2) : ℤ) : ℚ) / 2 := hcomp.trans hrth
  have hk2 : (2 : ℤ) ≤ pythonRound (weightedSum (dimScores t) * 2) := by
    apply pythonRound_ge_of_lt_half
    push_cast
    linarith only [hXl, hXu, hMl, hMu]
  have hk10 : pythonRound (weightedSum (dimScores t) * 2) ≤ 10 := by
    apply pythonRound_le_of_lt_half
    push_cast
    linarith only [hXl, hXu, hMl, hMu]
  have hex : ∃ k : ℕ, 2 ≤ k ∧ k ≤ 10 ∧ (parse_review_scores t).2 = (k : ℚ) / 2 := by
    refine ⟨(pythonRound (weightedSum (dimScores t) * 2)).toNat, by omega, by omega, ?_⟩
    rw [hcv]
    congr 1
    exact_mod_cast (Int.toNat_of_nonneg
      (by omega : (0 : ℤ) ≤ pythonRound (weightedSum (dimScores t) * 2))).symm
  have hmain : |spec_weighted_sum (dimScores t) - (parse_review_scores t).2| ≤ 1/4 ∧
      ((¬ ∃ m : ℤ, spec_weighted_sum (dimScores t) = (2 * (m : ℚ) + 1) / 4) →
        (parse_review_scores t).2 = round_to_half (spec_weighted_sum (dimScores t))) := by
    by_cases htie : M % 10 = 5
    · obtain ⟨a, haM⟩ : ∃ a, M = 10 * a + 5 := ⟨M / 10, by omega⟩
      have ha2 : 2 ≤ a := by omega
      have ha9 : a ≤ 9 := by omega
      have hMcast : (M : ℚ) = 10 * (a : ℚ) + 5 := by exact_mod_cast haM
      have hka : ((a : ℕ) : ℤ) ≤ pythonRound (weightedSum (dimScores t) * 2) := by
        apply pythonRound_ge_of_lt_half
        push_cast
        linarith only [hXl, hXu, hMcast]
      have hka1 : pythonRound (weightedSum (dimScores t) * 2) ≤ ((a : ℕ) : ℤ) + 1 := by
        apply pythonRound_le_of_lt_half
        push_cast
        linarith only [hXl, hXu, hMcast]
      constructor
      · rw [hspec, hcv]
        have hor : pythonRound (weightedSum (dimScores t) * 2) = ((a : ℕ) : ℤ) ∨
            pythonRound (weightedSum (dimScores t) * 2) = ((a : ℕ) : ℤ) + 1 := by
          omega
        rcases hor with hk | hk <;> rw [hk] <;> push_cast <;> rw [abs_le] <;>
          constructor <;> linarith only [hMcast]
      · intro hno
        exfalso
        apply hno
        refine ⟨((a : ℕ) : ℤ), ?_⟩
        rw [hspec]
        push_cast
        linarith only [hMcast]
    · obtain ⟨a, b, hab, hb9, hbne⟩ : ∃ a b, M = 10 * a + b ∧ b ≤ 9 ∧ b ≠ 5 :=
        ⟨M / 10, M % 10, by omega, by omega, htie⟩
      have hMcast : (M : ℚ) = 10 * (a : ℚ) + (b : ℚ) := by exact_mod_cast hab
      have hb0c : (0 : ℚ) ≤ (b : ℚ) := by positivity
      have hb9c : (b : ℚ) ≤ 9 := by exact_mod_cast hb9
      by_cases hble : b ≤ 4
      · have hb4c : (b : ℚ) ≤ 4 := by exact_mod_cast hble
        have hc1 : pythonRound (weightedSum (dimScores t) * 2) = ((a : ℕ) : ℤ) := by
          apply pythonRound_eq_of_between <;> push_cast <;>
            linarith only [hXl, hXu, hMcast, hb0c, hb4c]
        have hc2 : pythonRound ((M : ℚ) / 20 * 2) = ((a : ℕ) : ℤ) := by
          apply pythonRound_eq_of_between <;> push_cast <;>
            linarith only [hMcast, hb0c, hb4c]
        have heqc : (parse_review_scores t).2 =
            round_to_half (spec_weighted_sum (dimScores t)) := by
          rw [hcv, hspec, round_to_half, hc2, hc1]
        refine ⟨?_, fun _ => heqc⟩
        rw [hspec, hcv, hc1]
        push_cast
        rw [abs_le]
        constructor <;> linarith only [hMcast, hb0c, hb4c]
      · have hb6 : 6 ≤ b := by omega
        have hb6c : (6 : ℚ) ≤ (b : ℚ) := by exact_mod_cast hb6
        have hc1 : pythonRound (weightedSum (dimScores t) * 2) =
            ((a : ℕ) : ℤ) + 1 := by
          apply pythonRound_eq_of_between <;> push_cast <;>
            linarith only [hXl, hXu, hMcast, hb6c, hb9c]
        have hc2 : pythonRound ((M : ℚ) / 20 * 2) = ((a : ℕ) : ℤ) + 1 := by
          apply pythonRound_eq_of_between <;> push_cast <;>
            linarith only [hMcast, hb6c, hb9c]
        have heqc : (parse_review_scores t).2 =
            round_to_half (spec_weighted_sum (dimScores t)) := by
          rw [hcv, hspec, round_to_half, hc2, hc1]
        refine ⟨?_, fun _ => heqc⟩
        rw [hspec, hcv, hc1]
        push_cast
        rw [abs_le]
        constructor <;> linarith only [hMcast, hb6c, hb9c]
  exact ⟨hcomp, hmain.1, hex, hmain.2⟩

/-- Every composite the extractor can return is `k/2` for some natural
`k ≤ 10` (either the sentinel `0` or a rounded weighted sum in `[1, 5]`). -/
theorem parse_snd_half (t : List Char) :
    ∃ k : ℕ, k ≤ 10 ∧ (parse_review_scores t).2 = (k : ℚ) / 2 := by
  by_cases hall : (dimScores t).all Option.isSome = true
  · obtain ⟨k, _, hk10, hkv⟩ := (composite_policy_all t hall).2.2.1
    exact ⟨k, hk10, hkv⟩
  · exact ⟨0, by norm_num, by rw [parse_snd_eq_zero_of_not_all t hall]; norm_num⟩

/-- A review whose eight dimensions score 1, 1, 1, 1, 1, 3, 1, 2: the exact
decimal weighted sum is 5/4, an exact tie between 1.0 and 1.5. -/
def tieReview : List Char := cs "## 评分汇总
维度1-事实准确性: 1
维度2-来源可信度: 1
维度3-分析深度与逻辑性: 1
维度4-客观性与偏见控制: 1
维度5-全面性与覆盖度: 1
维度6-时效性与前瞻性: 3
维度7-清晰度与结构化: 1
维度8-实用价值与洞察力: 2"

/-- C1 counterexample: on the tie review (exact weighted sum 5/4) the
program's float accumulation lands at `5/4 + 2^-52`, so `round(val*2)` sees
`2.5 + 2^-51` and rounds UP to 3: the extractor returns 1.5, while the
claimed composite — the exact weighted sum rounded to the nearest 0.5 by
the code's own (banker's) rounding helper — is 1.0. -/
theorem c1_counterexample :
    dimScores tieReview =
      [some 1, some 1, some 1, some 1, some 1, some 3, some 1, some 2] ∧
    spec_weighted_sum (dimScores tieReview) = 5/4 ∧
    round_to_half (spec_weighted_sum (dimScores tieReview)) = 1 ∧
    (parse_review_scores tieReview).2 = 3/2 ∧
    (parse_review_scores tieReview).2 ≠
      round_to_half (spec_weighted_sum (dimScores tieReview)) := by
  have hds : dimScores tieReview =
      [some 1, some 1, some 1, some 1, some 1, some 3, some 1, some 2] := by decide
  have hspec : spec_weighted_sum (dimScores tieReview) = 5/4 := by
    rw [hds]
    norm_num [spec_weighted_sum]
  have hrth : round_to_half (spec_weighted_sum (dimScores tieReview)) = 1 := by
    rw [hspec]
    norm_num [round_to_half, pythonRound, Int.fract]
  have hall : (dimScores tieReview).all Option.isSome = true := by
    rw [hds]
    rfl
  have hEa : fl53 ((1 : ℚ) * fp20) = (3602879701896397 : ℚ) / 2 ^ 54 := by
    have hn : ⌊((1 : ℚ) * fp20) * 2 ^ 56⌋ = ((14411518807585588 : ℕ) : ℤ) := by
      norm_num [fp20, fp15, fp10, fp05]
    have hr : round53 14411518807585588 = 14411518807585588 := by
      unfold round53
      rw [show Nat.log2 14411518807585588 = 53 from by
        rw [Nat.log2_eq_log_two]
        exact Nat.log_eq_of_pow_le_of_lt_pow (by norm_num) (by norm_num)]
      norm_num
    unfold fl53
    rw [hn, Int.toNat_natCast, hr]
    norm_num
  have hEb : fl53 ((1 : ℚ) * fp15) = (5404319552844595 : ℚ) / 2 ^ 55 := by
    have hn : ⌊((1 : ℚ) * fp15) * 2 ^ 56⌋ = ((10808639105689190 : ℕ) : ℤ) := by
      norm_num [fp20, fp15, fp10, fp05]
    have hr : round53 10808639105689190 = 10808639105689190 := by
      unfold round53
      rw [show Nat.log2 10808639105689190 = 53 from by
        rw [Nat.log2_eq_log_two]
        exact Nat.log_eq_of_pow_le_of_lt_pow (by norm_num) (by norm_num)]
      norm_num
    unfold fl53
    rw [hn, Int.toNat_natCast, hr]
    norm_num
  have hEc : fl53 ((1 : ℚ) * fp10) = (3602879701896397 : ℚ) / 2 ^ 55 := by
    have hn : ⌊((1 : ℚ) * fp10) * 2 ^ 56⌋ = ((7205759403792794 : ℕ) : ℤ) := by
      norm_num [fp20, fp15, fp10, fp05]
    have hr : round53 7205759403792794 = 7205759403792794 := by
      unfold round53
      rw [show Nat.log2 7205759403792794 = 52 from by
        rw [Nat.log2_eq_log_two]
        exact Nat.log_eq_of_pow_le_of_lt_pow (by norm_num) (by norm_num)]
      norm_num
    unfold fl53
    rw [hn, Int.toNat_natCast, hr]
    norm_num
  have hEd : fl53 ((3 : ℚ) * fp10) = (1351079888211149 : ℚ) / 2 ^ 52 := by
    have hn : ⌊((3 : ℚ) * fp10) * 2 ^ 56⌋ = ((21617278211378382 : ℕ) : ℤ) := by
      norm_num [fp20, fp15, fp10, fp05]
    have hr : round53 21617278211378382 = 21617278211378384 := by
      unfold round53
      rw [show Nat.log2 21617278211378382 = 54 from by
        rw [Nat.log2_eq_log_two]
        exact Nat.log_eq_of_pow_le_of_lt_pow (by norm_num) (by norm_num)]
      norm_num
    unfold fl53
    rw [hn, Int.toNat_natCast, hr]
    norm_num
  have hEe : fl53 ((1 : ℚ) * fp05) = (3602879701896397 : ℚ) / 2 ^ 56 := by
    have hn : ⌊((1 : ℚ) * fp05) * 2 ^ 56⌋ = ((3602879701896397 : ℕ) : ℤ) := by
      norm_num [fp20, fp15, fp10, fp05]
    have hr : round53 3602879701896397 = 3602879701896397 := by
      unfold round53
      rw [show Nat.log2 3602879701896397 = 51 from by
        rw [Nat.log2_eq_log_two]
        exact Nat.log_eq_of_pow_le_of_lt_pow (by norm_num) (by norm_num)]
      norm_num
    unfold fl53
    rw [hn, Int.toNat_natCast, hr]
    norm_num
  have hEf : fl53 ((2 : ℚ) * fp05) = (3602879701896397 : ℚ) / 2 ^ 55 := by
    have hn : ⌊((2 : ℚ) * fp05) * 2 ^ 56⌋ = ((7205759403792794 : ℕ) : ℤ) := by
      norm_num [fp20, fp15, fp10, fp05]
    have hr : round53 7205759403792794 = 7205759403792794 := by
      unfold round53
      rw [show Nat.log2 7205759403792794 = 52 from by
        rw [Nat.log2_eq_log_two]
        exact Nat.log_eq_of_pow_le_of_lt_pow (by norm_num) (by norm_num)]
      norm_num
    unfold fl53
    rw [hn, Int.toNat_natCast, hr]
    norm_num
  have hEg1 : fl53 ((3602879701896397 : ℚ) / 2 ^ 54 + (5404319552844595 : ℚ) / 2 ^ 55) = (3152519739159347 : ℚ) / 2 ^ 53 := by
    have hn : ⌊((3602879701896397 : ℚ) / 2 ^ 54 + (5404319552844595 : ℚ) / 2 ^ 55) * 2 ^ 56⌋ = ((25220157913274778 : ℕ) : ℤ) := by
      norm_num [fp20, fp15, fp10, fp05]
    have hr : round53 25220157913274778 = 25220157913274776 := by
      unfold round53
      rw [show Nat.log2 25220157913274778 = 54 from by
        rw [Nat.log2_eq_log_two]
        exact Nat.log_eq_of_pow_le_of_lt_pow (by norm_num) (by norm_num)]
      norm_num
    unfold fl53
    rw [hn, Int.toNat_natCast, hr]
    norm_num
  have hEg2 : fl53 ((3152519739159347 : ℚ) / 2 ^ 53 + (3602879701896397 : ℚ) / 2 ^ 54) = (2476979795053773 : ℚ) / 2 ^ 52 := by
    have hn : ⌊((3152519739159347 : ℚ) / 2 ^ 53 + (3602879701896397 : ℚ) / 2 ^ 54) * 2 ^ 56⌋ = ((39631676720860364 : ℕ) : ℤ) := by
      norm_num [fp20, fp15, fp10, fp05]
    have hr : round53 39631676720860364 = 39631676720860368 := by
      unfold round53
      rw [show Nat.log2 39631676720860364 = 55 from by
        rw [Nat.log2_eq_log_two]
        exact Nat.log_eq_of_pow_le_of_lt_pow (by norm_num) (by norm_num)]
      norm_num
    unfold fl53
    rw [hn, Int.toNat_natCast, hr]
    norm_num
  have hEg3 : fl53 ((2476979795053773 : ℚ) / 2 ^ 52 + (5404319552844595 : ℚ) / 2 ^ 55) = (6305039478318695 : ℚ) / 2 ^ 53 := by
    have hn : ⌊((2476979795053773 : ℚ) / 2 ^ 52 + (5404319552844595 : ℚ) / 2 ^ 55) * 2 ^ 56⌋ = ((50440315826549558 : ℕ) : ℤ) := by
      norm_num [fp20, fp15, fp10, fp05]
    have hr : round53 50440315826549558 = 50440315826549560 := by
      unfold round53
      rw [show Nat.log2 50440315826549558 = 55 from by
        rw [Nat.log2_eq_log_two]
        exact Nat.log_eq_of_pow_le_of_lt_pow (by norm_num) (by norm_num)]
      norm_num
    unfold fl53
    rw [hn, Int.toNat_natCast, hr]
    norm_num
  have hEg4 : fl53 ((6305039478318695 : ℚ) / 2 ^ 53 + (3602879701896397 : ℚ) / 2 ^ 55) = (3602879701896397 : ℚ) / 2 ^ 52 := by
    have hn : ⌊((6305039478318695 : ℚ) / 2 ^ 53 + (3602879701896397 : ℚ) / 2 ^ 55) * 2 ^ 56⌋ = ((57646075230342354 : ℕ) : ℤ) := by
      norm_num [fp20, fp15, fp10, fp05]
    have hr : round53 57646075230342354 = 57646075230342352 := by
      unfold round53
      rw [show Nat.log2 57646075230342354 = 55 from by
        rw [Nat.log2_eq_log_two]
        exact Nat.log_eq_of_pow_le_of_lt_pow (by norm_num) (by norm_num)]
      norm_num
    unfold fl53
    rw [hn, Int.toNat_natCast, hr]
    norm_num
  have hEg5 : fl53 ((3602879701896397 : ℚ) / 2 ^ 52 + (1351079888211149 : ℚ) / 2 ^ 52) = (2476979795053773 : ℚ) / 2 ^ 51 := by
    have hn : ⌊((3602879701896397 : ℚ) / 2 ^ 52 + (1351079888211149 : ℚ) / 2 ^ 52) * 2 ^ 56⌋ = ((79263353441720736 : ℕ) : ℤ) := by
      norm_num [fp20, fp15, fp10, fp05]
    have hr : round53 79263353441720736 = 79263353441720736 := by
      unfold round53
      rw [show Nat.log2 79263353441720736 = 56 from by
        rw [Nat.log2_eq_log_two]
        exact Nat.log_eq_of_pow_le_of_lt_pow (by norm_num) (by norm_num)]
      norm_num
    unfold fl53
    rw [hn, Int.toNat_natCast, hr]
    norm_num
  have hEg6 : fl53 ((2476979795053773 : ℚ) / 2 ^ 51 + (3602879701896397 : ℚ) / 2 ^ 56) = (5179139571476071 : ℚ) / 2 ^ 52 := by
    have hn : ⌊((2476979795053773 : ℚ) / 2 ^ 51 + (3602879701896397 : ℚ) / 2 ^ 56) * 2 ^ 56⌋ = ((82866233143617133 : ℕ) : ℤ) := by
      norm_num [fp20, fp15, fp10, fp05]
    have hr : round53 82866233143617133 = 82866233143617136 := by
      unfold round53
      rw [show Nat.log2 82866233143617133 = 56 from by
        rw [Nat.log2_eq_log_two]
        exact Nat.log_eq_of_pow_le_of_lt_pow (by norm_num) (by norm_num)]
      norm_num
    unfold fl53
    rw [hn, Int.toNat_natCast, hr]
    norm_num
  have hEg7 : fl53 ((5179139571476071 : ℚ) / 2 ^ 52 + (3602879701896397 : ℚ) / 2 ^ 55) = (5629499534213121 : ℚ) / 2 ^ 52 := by
    have hn : ⌊((5179139571476071 : ℚ) / 2 ^ 52 + (3602879701896397 : ℚ) / 2 ^ 55) * 2 ^ 56⌋ = ((90071992547409930 : ℕ) : ℤ) := by
      norm_num [fp20, fp15, fp10, fp05]
    have hr : round53 90071992547409930 = 90071992547409936 := by
      unfold round53
      rw [show Nat.log2 90071992547409930 = 56 from by
        rw [Nat.log2_eq_log_two]
        exact Nat.log_eq_of_pow_le_of_lt_pow (by norm_num) (by norm_num)]
      norm_num
    unfold fl53
    rw [hn, Int.toNat_natCast, hr]
    norm_num
  have hstep0 : weightedSum [some 1, some 1, some 1, some 1, some 1, some 3, some 1, some 2] =
      floatSum [fl53 ((1 : ℚ) * fp20), fl53 ((1 : ℚ) * fp15), fl53 ((1 : ℚ) * fp20),
        fl53 ((1 : ℚ) * fp15), fl53 ((1 : ℚ) * fp10), fl53 ((3 : ℚ) * fp10),
        fl53 ((1 : ℚ) * fp05), fl53 ((2 : ℚ) * fp05)] := by
    unfold weightedSum
    simp only [REVIEW_DIMENSIONS, List.zip_cons_cons, List.zip_nil_right, List.map_cons,
      List.map_nil, Option.getD_some]
  have hcomp : (parse_review_scores tieReview).2 = 3/2 := by
    rw [parse_snd_eq_of_all tieReview hall, hds, hstep0, hEa, hEb, hEc, hEd, hEe, hEf]
    rw [floatSum_step, hEg1, floatSum_step, hEg2, floatSum_step, hEg3, floatSum_step, hEg4,
      floatSum_step, hEg5, floatSum_step, hEg6, floatSum_step, hEg7, floatSum_single]
    norm_num [round_to_half, pythonRound, Int.fract]
  refine ⟨hds, hspec, hrth, hcomp, ?_⟩
  rw [hcomp, hrth]
  norm_num

/-- C1 (amended): on any review text, the extractor returns the (possibly
partial) score map together with a composite that, when all eight
dimensions resolved (each value an integer in `[1, 5]`), is the binary64
weighted sum rounded to the nearest 0.5 — a nonzero multiple of 0.5 in
`[1, 5]` within 1/4 of the exact decimal weighted sum, equal to the exact
sum's own half-rounding except possibly at exact ties (odd multiples of
1/4), where the float accumulation decides the side — and that equals the
sentinel `0` exactly as soon as at least one dimension failed to resolve. -/
theorem c1_float_composite_policy (review : List Char) :
    (parse_review_scores review).1 = dimScores review ∧
    (∀ x ∈ dimScores review, ∀ v : ℚ, x = some v → ∃ n : ℕ, 1 ≤ n ∧ n ≤ 5 ∧ v = (n : ℚ)) ∧
    ((dimScores review).all Option.isSome = true →
      (parse_review_scores review).2 = round_to_half (weightedSum (dimScores review)) ∧
      |spec_weighted_sum (dimScores review) - (parse_review_scores review).2| ≤ 1/4 ∧
      (∃ k : ℕ, 2 ≤ k ∧ k ≤ 10 ∧ (parse_review_scores review).2 = (k : ℚ) / 2) ∧
      (parse_review_scores review).2 ≠ 0 ∧
      ((¬ ∃ m : ℤ, spec_weighted_sum (dimScores review) = (2 * (m : ℚ) + 1) / 4) →
        (parse_review_scores review).2 = round_to_half (spec_weighted_sum (dimScores review)))) ∧
    ((dimScores review).all Option.isSome ≠ true →
      (parse_review_scores review).2 = 0) := by
  refine ⟨rfl, ?_, ?_, parse_snd_eq_zero_of_not_all review⟩
  · intro x hx v hv
    rw [dimScores_explicit] at hx
    simp only [List.mem_cons, List.not_mem_nil, or_false] at hx
    rcases hx with h | h | h | h | h | h | h | h <;> exact resolveDim_range (h ▸ hv)
  · intro hall
    obtain ⟨hcomp, habs, hex, himp⟩ := composite_policy_all review hall
    refine ⟨hcomp, habs, hex, ?_, himp⟩
    obtain ⟨k, hk2, _, hkv⟩ := hex
    rw [hkv]
    have hk2c : (2 : ℚ) ≤ (k : ℚ) := by exact_mod_cast hk2
    intro hzero
    rw [div_eq_zero_iff] at hzero
    rcases hzero with h | h
    · linarith
    · norm_num at h

/-- A review carrying the spec's example scores 5, 4, 5, 4, 4, 5, 4, 5
(exact weighted sum 91/20, not a tie). -/
def scoredReview : List Char := cs "## 评分汇总
维度1-事实准确性: 5
维度2-来源可信度: 4
维度3-分析深度与逻辑性: 5
维度4-客观性与偏见控制: 4
维度5-全面性与覆盖度: 4
维度6-时效性与前瞻性: 5
维度7-清晰度与结构化: 4
维度8-实用价值与洞察力: 5"

/-- C1 witness: the fully-scoring review resolves all eight dimensions, its
exact weighted sum 91/20 is not a tie, so the composite is nonzero and
coincides with the exact sum's half-rounding. -/
theorem c1_float_composite_policy_witness :
    (dimScores scoredReview).all Option.isSome = true ∧
    (parse_review_scores scoredReview).2 ≠ 0 ∧
    (parse_review_scores scoredReview).2 =
      round_to_half (spec_weighted_sum (dimScores scoredReview)) := by
  have hall : (dimScores scoredReview).all Option.isSome = true := by decide
  have hds : dimScores scoredReview =
      [some 5, some 4, some 5, some 4, some 4, some 5, some 4, some 5] := by decide
  have hnotie : ¬ ∃ m : ℤ,
      spec_weighted_sum (dimScores scoredReview) = (2 * (m : ℚ) + 1) / 4 := by
    have hv : spec_weighted_sum (dimScores scoredReview) = 91/20 := by
      rw [hds]
      norm_num [spec_weighted_sum]
    rw [hv]
    rintro ⟨m, hm⟩
    have h10 : (10 : ℚ) * (m : ℚ) = 86 := by linarith
    have h10' : (10 * m : ℤ) = 86 := by exact_mod_cast h10
    omega
  have h := c1_float_composite_policy scoredReview
  exact ⟨hall, (h.2.2.1 hall).2.2.2.1, (h.2.2.1 hall).2.2.2.2 hnotie⟩

/-! ### C2: gateway retry/backoff (`_call_llm`, `_call_llm_with_file`)

The loop body of both functions is embedded over an oracle giving the
outcome of each 0-based attempt: success with a response text, a transient
failure (one of the `RETRY_EXCEPTIONS` network/SSL/timeout/connection/OS
errors), or any other, fatal exception.  Sleeps are recorded as the list of
delays (in seconds) performed between attempts. -/

/-- Outcome of one `model.generate_content` (plus, for the file variant,
`genai.upload_file`) attempt.  Error payloads are tagged by a number. -/
inductive AttemptOutcome where
  | success (txt : List Char)
  | transient (e : Nat)
  | fatal (e : Nat)
deriving DecidableEq

/-- Result of the whole call: returned text, a fatal error re-raised as-is
(`_call_llm`), a fatal error wrapped in a new RuntimeError
(`_call_llm_with_file`), or the terminal RuntimeError raised after all
attempts, which states the attempt count and wraps the last transient
error. -/
inductive CallResult where
  | ok (txt : List Char)
  | fatalRaised (e : Nat)
  | fatalWrapped (e : Nat)
  | exhausted (attempts : Nat) (lastErr : Option Nat)
deriving DecidableEq

/-- The `for attempt in range(max_retries)` loop shared by `_call_llm`
(base delay 10, fatal errors re-raised) and `_call_llm_with_file` (base
delay 15, fatal errors wrapped): on a transient error the loop sleeps
`(attempt + 1) * base` seconds unless this was the final attempt, and a
run-off of the loop raises the terminal error carrying `max_retries` and
the last transient error. -/
def retryLoop (base : Nat) (wrapFatal : Bool) (total : Nat)
    (outcomes : Nat → AttemptOutcome) :
    Nat → Nat → Option Nat → CallResult × List Nat
  | _, 0, last => (.exhausted total last, [])
  | attempt, r + 1, _ =>
    match outcomes attempt with
    | .success t => (.ok t, [])
    | .fatal e => if wrapFatal then (.fatalWrapped e, []) else (.fatalRaised e, [])
    | .transient e =>
      let rest := retryLoop base wrapFatal total outcomes (attempt + 1) r (some e)
      if r = 0 then rest else (rest.1, (attempt + 1) * base :: rest.2)

/-- `_call_llm`: max `maxRetries` attempts, base delay 10 s, fatal errors
propagate unchanged. -/
def call_llm (maxRetries : Nat) (outcomes : Nat → AttemptOutcome) : CallResult × List Nat :=
  retryLoop 10 false maxRetries outcomes 0 maxRetries none

/-- `_call_llm_with_file`: max `maxRetries` attempts, base delay 15 s,
fatal errors propagate immediately but wrapped in a RuntimeError. -/
def call_llm_with_file (maxRetries : Nat) (outcomes : Nat → AttemptOutcome) :
    CallResult × List Nat :=
  retryLoop 15 true maxRetries outcomes 0 maxRetries none

theorem retryLoop_success (base : Nat) (wrapFatal : Bool) (total : Nat)
    (outcomes : Nat → AttemptOutcome) (errs : Nat → Nat) (t : List Char) :
    ∀ (m attempt r : Nat) (last : Option Nat), m < r →
      (∀ i, i < m → outcomes (attempt + i) = .transient (errs (attempt + i))) →
      outcomes (attempt + m) = .success t →
      retryLoop base wrapFatal total outcomes attempt r last =
        (.ok t, (List.range m).map fun i => (attempt + i + 1) * base) := by
  intro m
  induction m with
  | zero =>
    intro attempt r last hm _ hs
    obtain ⟨r', rfl⟩ := Nat.exists_eq_succ_of_ne_zero (Nat.pos_iff_ne_zero.mp hm)
    simp only [retryLoop]
    rw [show attempt + 0 = attempt from rfl] at hs
    rw [hs]
    rfl
  | succ m ih =>
    intro attempt r last hm htr hs
    obtain ⟨r', rfl⟩ := Nat.exists_eq_succ_of_ne_zero (Nat.pos_iff_ne_zero.mp (Nat.lt_of_le_of_lt (Nat.zero_le _) hm))
    have h0 : outcomes attempt = .transient (errs attempt) := by
      have := htr 0 (Nat.succ_pos m)
      simpa using this
    have hr' : m < r' := Nat.lt_of_succ_lt_succ hm
    have hrest := ih (attempt + 1) r' (some (errs attempt)) hr'
      (fun i hi => by
        have := htr (i + 1) (Nat.succ_lt_succ hi)
        rwa [show attempt + (i + 1) = attempt + 1 + i by omega] at this)
      (by rwa [show attempt + 1 + m = attempt + (m + 1) by omega])
    simp only [retryLoop, h0]
    rw [if_neg (Nat.pos_iff_ne_zero.mp (Nat.lt_of_le_of_lt (Nat.zero_le _) hr'))]
    rw [hrest]
    simp only [List.range_succ_eq_map, List.map_cons, List.map_map, Nat.add_zero]
    refine congrArg _ ?_
    refine congrArg _ ?_
    exact List.map_congr_left fun a _ => by
      simp only [Function.comp_apply, Nat.succ_eq_add_one]
      ring

theorem retryLoop_exhaust (base : Nat) (wrapFatal : Bool) (total : Nat)
    (outcomes : Nat → AttemptOutcome) (errs : Nat → Nat) :
    ∀ (r attempt : Nat) (last : Option Nat), 1 ≤ r →
      (∀ i, i < r → outcomes (attempt + i) = .transient (errs (attempt + i))) →
      retryLoop base wrapFatal total outcomes attempt r last =
        (.exhausted total (some (errs (attempt + (r - 1)))),
          (List.range (r - 1)).map fun i => (attempt + i + 1) * base) := by
  intro r
  induction r with
  | zero => omega
  | succ r' ih =>
    intro attempt last _ htr
    have h0 : outcomes attempt = .transient (errs attempt) := by
      have := htr 0 (Nat.succ_pos r')
      simpa using this
    simp only [retryLoop, h0]
    rcases Nat.eq_zero_or_pos r' with hz | hp
    · subst hz
      simp only [if_pos rfl, retryLoop]
      simp
    · rw [if_neg (Nat.pos_iff_ne_zero.mp hp)]
      have hrest := ih (attempt + 1) (some (errs attempt)) hp
        (fun i hi => by
          have := htr (i + 1) (Nat.succ_lt_succ hi)
          rwa [show attempt + (i + 1) = attempt + 1 + i by omega] at this)
      rw [hrest]
      obtain ⟨r'', rfl⟩ := Nat.exists_eq_succ_of_ne_zero (Nat.pos_iff_ne_zero.mp hp)
      simp only [Nat.succ_sub_one]
      rw [show attempt + 1 + r'' = attempt + (r'' + 1) by omega]
      refine congrArg _ ?_
      simp only [List.range_succ_eq_map, List.map_cons, List.map_map, Nat.add_zero]
      refine congrArg _ ?_
      exact List.map_congr_left fun a _ => by
        simp only [Function.comp_apply, Nat.succ_eq_add_one]
        ring

theorem retryLoop_fatal (base : Nat) (wrapFatal : Bool) (total : Nat)
    (outcomes : Nat → AttemptOutcome) (errs : Nat → Nat) (e : Nat) :
    ∀ (m attempt r : Nat) (last : Option Nat), m < r →
      (∀ i, i < m → outcomes (attempt + i) = .transient (errs (attempt + i))) →
      outcomes (attempt + m) = .fatal e →
      retryLoop base wrapFatal total outcomes attempt r last =
        (if wrapFatal then .fatalWrapped e else .fatalRaised e,
          (List.range m).map fun i => (attempt + i + 1) * base) := by
  intro m
  induction m with
  | zero =>
    intro attempt r last hm _ hs
    obtain ⟨r', rfl⟩ := Nat.exists_eq_succ_of_ne_zero (Nat.pos_iff_ne_zero.mp hm)
    simp only [retryLoop]
    rw [show attempt + 0 = attempt from rfl] at hs
    rw [hs]
    split_ifs <;> simp
  | succ m ih =>
    intro attempt r last hm htr hs
    obtain ⟨r', rfl⟩ := Nat.exists_eq_succ_of_ne_zero (Nat.pos_iff_ne_zero.mp (Nat.lt_of_le_of_lt (Nat.zero_le _) hm))
    have h0 : outcomes attempt = .transient (errs attempt) := by
      have := htr 0 (Nat.succ_pos m)
      simpa using this
    have hr' : m < r' := Nat.lt_of_succ_lt_succ hm
    have hrest := ih (attempt + 1) r' (some (errs attempt)) hr'
      (fun i hi => by
        have := htr (i + 1) (Nat.succ_lt_succ hi)
        rwa [show attempt + (i + 1) = attempt + 1 + i by omega] at this)
      (by rwa [show attempt + 1 + m = attempt + (m + 1) by omega])
    simp only [retryLoop, h0]
    rw [if_neg (Nat.pos_iff_ne_zero.mp (Nat.lt_of_le_of_lt (Nat.zero_le _) hr'))]
    rw [hrest]
    simp only [List.range_succ_eq_map, List.map_cons, List.map_map, Nat.add_zero]
    refine congrArg _ ?_
    refine congrArg _ ?_
    exact List.map_congr_left fun a _ => by
      simp only [Function.comp_apply, Nat.succ_eq_add_one]
      ring

/-- C2: with max attempt count `N`, (i) transient failures on attempts
`1..k-1` followed by success on attempt `k ≤ N` return the success value
after sleeping `1*base, 2*base, ..., (k-1)*base` seconds (base 10 for
`_call_llm`, 15 for `_call_llm_with_file`); (ii) transient failures on all
`N` attempts raise the terminal error stating `N` and wrapping the last
underlying failure; (iii) a fatal failure propagates immediately — no
further attempt and no further backoff delay. -/
theorem c2_retry_policy (N k : Nat) (outcomes : Nat → AttemptOutcome)
    (t : List Char) (errs : Nat → Nat) (e : Nat) :
    (1 ≤ k → k ≤ N →
      (∀ i, i < k - 1 → outcomes i = .transient (errs i)) →
      outcomes (k - 1) = .success t →
      call_llm N outcomes = (.ok t, (List.range (k - 1)).map fun i => (i + 1) * 10) ∧
      call_llm_with_file N outcomes =
        (.ok t, (List.range (k - 1)).map fun i => (i + 1) * 15)) ∧
    (1 ≤ N →
      (∀ i, i < N → outcomes i = .transient (errs i)) →
      call_llm N outcomes =
        (.exhausted N (some (errs (N - 1))), (List.range (N - 1)).map fun i => (i + 1) * 10) ∧
      call_llm_with_file N outcomes =
        (.exhausted N (some (errs (N - 1))), (List.range (N - 1)).map fun i => (i + 1) * 15)) ∧
    (∀ j, j < N →
      (∀ i, i < j → outcomes i = .transient (errs i)) →
      outcomes j = .fatal e →
      call_llm N outcomes = (.fatalRaised e, (List.range j).map fun i => (i + 1) * 10) ∧
      call_llm_with_file N outcomes =
        (.fatalWrapped e, (List.range j).map fun i => (i + 1) * 15)) := by
  refine ⟨?_, ?_, ?_⟩
  · intro hk hkN htr hs
    have hm : k - 1 < N := by omega
    constructor
    · have := retryLoop_success 10 false N outcomes errs t (k - 1) 0 N none hm
        (fun i hi => by simpa using htr i hi) (by simpa using hs)
      simpa [call_llm] using this
    · have := retryLoop_success 15 true N outcomes errs t (k - 1) 0 N none hm
        (fun i hi => by simpa using htr i hi) (by simpa using hs)
      simpa [call_llm_with_file] using this
  · intro hN htr
    constructor
    · have := retryLoop_exhaust 10 false N outcomes errs N 0 none hN
        (fun i hi => by simpa using htr i hi)
      simpa [call_llm] using this
    · have := retryLoop_exhaust 15 true N outcomes errs N 0 none hN
        (fun i hi => by simpa using htr i hi)
      simpa [call_llm_with_file] using this
  · intro j hj htr hf
    constructor
    · have := retryLoop_fatal 10 false N outcomes errs e j 0 N none hj
        (fun i hi => by simpa using htr i hi) (by simpa using hf)
      simpa [call_llm] using this
    · have := retryLoop_fatal 15 true N outcomes errs e j 0 N none hj
        (fun i hi => by simpa using htr i hi) (by simpa using hf)
      simpa [call_llm_with_file] using this

/-- C2 witness: with 3 max attempts, one transient failure then success
returns the text after a single 10 s sleep; two transient failures with max
2 exhaust into the terminal error wrapping the last failure; an immediate
fatal failure is raised with no retry (and is wrapped by the file
variant). -/
theorem c2_retry_policy_witness :
    call_llm 3 (fun n => if n = 0 then .transient 7 else .success (cs "ok")) =
      (.ok (cs "ok"), [10]) ∧
    call_llm 2 (fun _ => .transient 9) = (.exhausted 2 (some 9), [10]) ∧
    call_llm 3 (fun _ => .fatal 5) = (.fatalRaised 5, []) ∧
    call_llm_with_file 3 (fun _ => .fatal 5) = (.fatalWrapped 5, []) := by
  have h1 := (c2_retry_policy 3 2 (fun n => if n = 0 then .transient 7 else .success (cs "ok"))
    (cs "ok") (fun _ => 7) 5).1 (by omega) (by omega) (by decide) (by decide)
  have h2 := (c2_retry_policy 2 1 (fun _ => .transient 9) [] (fun _ => 9) 5).2.1
    (by omega) (by decide)
  have h3 := (c2_retry_policy 3 1 (fun _ => .fatal 5) [] (fun _ => 0) 5).2.2 0
    (by omega) (by decide) (by decide)
  refine ⟨by simpa using h1.1, by simpa using h2.1, by simpa using h3.1, by simpa using h3.2⟩

/-! ### Prompt templates and truncation (`AGENT*_PROMPT`, `_call_llm`,
`analyze_single_doc`, `_agent1_analyze` … `_agent3_review`) -/

/-- `AGENT1_LEVEL1_PROMPT` (verbatim). -/
def AGENT1_LEVEL1_PROMPT : List Char := cs "你是**文档结构与文体分析智能体（Agent1）**，专门负责对文档进行一级规范分析，提取表层写作规范与形式特征。

请以独立专家的身份，对以下文档进行系统分析。输出需包含以下 8 个维度（每个维度用 ## 二级标题）：

## 1. 文章结构
- 整体架构（如：总分总、递进式、并列式等）
- 章节层级与组织方式
- 段落间的逻辑关系

## 2. 章节规划
- 典型章节命名方式
- 章节长度与密度分布
- 章节间的过渡方式

## 3. 论点展开方式
- 论点提出方式（开门见山 / 层层递进等）
- 论点支撑逻辑
- 正反论证或多元视角的运用

## 4. 论据陈列方式
- 论据类型（数据、案例、引语、类比等）
- 论据的组织顺序
- 论据与论点的衔接方式

## 5. 语言风格
- 正式度与语域
- 句式特点（长短句比例、复杂句运用）
- 人称与视角

## 6. 常用词汇
- 领域术语
- 衔接词与过渡语
- 高频修饰语或限定词

## 7. 修辞手法
- 比喻、类比、排比等运用
- 强调与弱化策略
- 其他修辞特征

## 8. 引用规范
- 引用格式与位置
- 引用密度与分布
- 文献类型与权威性选择

请直接输出分析结果，不要输出前缀说明。

---
文档内容：
"

/-- `AGENT2_LEVEL2_PROMPT` (verbatim). -/
def AGENT2_LEVEL2_PROMPT : List Char := cs "你是**文档元逻辑与认知结构分析智能体（Agent2）**，专门负责对文档进行二级元语义分析，提取形而上的抽象认知模式与思维架构。

请以独立专家的身份，对以下文档进行系统分析。输出需包含以下 5 个维度（每个维度用 ## 二级标题）：

## 1. 概念构造方式
- 核心概念的界定与拆解方式
- 概念之间的层次与关系
- 抽象概念的具体化策略

## 2. 隐喻与比喻表达
- 使用的隐喻体系（如：空间隐喻、容器隐喻等）
- 比喻在论证中的角色
- 类比推理的运用模式

## 3. 论点递进手法
- 论证的层次与深度
- 从具体到抽象或从抽象到具体的路径
- 反驳与自我修正的结构

## 4. 分析角度选择
- 多角度切入的方式
- 视角切换的逻辑
- 主次角度的安排

## 5. 分析架构
- 整体认知框架（如：问题-方案、因果、比较等）
- 推理链的结构
- 结论生成的逻辑路径

请直接输出分析结果，不要输出前缀说明。

---
文档内容：
"

/-- `AGENT3_REVIEW_PROMPT` up to the `{source_content}` slot (the template is
represented split at its three `str.format` slots). -/
def AGENT3_PRE_SOURCE : List Char := cs "你是**写作质量评审专家智能体（Agent3）**，负责在 Level1、Level2 分析基础上，结合源文档对写作质量进行专业评价。

请根据以下【源文档】、【Level1 分析】、【Level2 分析】，按 8 个核心维度独立打分（1~5 分）。最后输出「评分汇总」区块。

---

## 评分标准（必须严格遵循）

### 维度1：事实准确性（权重20%）
- 1分：大量明显错误
- 3分：基本正确但有个别疑点
- 5分：事实严谨且可验证

### 维度2：来源可信度（权重15%）
- 1分：来源模糊或低可信
- 5分：来源优质且注明出处

### 维度3：分析深度与逻辑性（权重20%）
- 1分：浅显罗列
- 5分：多角度深度剖析且推理严谨

### 维度4：客观性与偏见控制（权重15%）
- 1分：强烈偏见
- 5分：高度客观

### 维度5：全面性与覆盖度（权重10%）
- 1分：片面
- 5分：多维度全面（覆盖关键各方观点、产业链上下游、潜在风险与机遇）

### 维度6：时效性与前瞻性（权重10%）
- 1分：过时信息
- 5分：结合最新动态并有前瞻判断

### 维度7：清晰度与结构化（权重5%）
- 1分：混乱晦涩
- 5分：逻辑清晰且易读

### 维度8：实用价值与洞察力（权重5%）
- 1分：泛泛而谈
- 5分：高价值洞察，可为决策者提供独特、可操作的洞见

---

## 输出格式要求

请先输出各维度的简要评语（1-2 句），最后**必须**输出以下格式的「评分汇总」区块（便于程序解析）：

```
## 评分汇总
维度1-事实准确性: X
维度2-来源可信度: X
维度3-分析深度与逻辑性: X
维度4-客观性与偏见控制: X
维度5-全面性与覆盖度: X
维度6-时效性与前瞻性: X
维度7-清晰度与结构化: X
维度8-实用价值与洞察力: X
```

其中 X 为 1~5 的整数。

---

【源文档】
"

/-- `AGENT3_REVIEW_PROMPT` between `{source_content}` and `{level1_content}`. -/
def AGENT3_PRE_L1 : List Char := cs "

---

【Level1 分析】
"

/-- `AGENT3_REVIEW_PROMPT` between `{level1_content}` and `{level2_content}`. -/
def AGENT3_PRE_L2 : List Char := cs "

---

【Level2 分析】
"

/-- `AGENT3_REVIEW_PROMPT` after `{level2_content}`. -/
def AGENT3_TAIL : List Char := cs "

---

请输出评审结果：
"

/-- Truncation marker appended by `_call_llm` when the assembled prompt
exceeds 900 000 characters. -/
def marker900 : List Char := cs "\n\n[文档过长已截断]"

/-- Truncation marker appended by `analyze_single_doc` when the document
content exceeds 120 000 characters. -/
def markerDoc : List Char := cs "\n\n[文档已截断，仅分析前 12 万字]"

/-- The prompt-ceiling step of `_call_llm`: a prompt longer than 900 000
characters is cut there and the explicit marker appended.  (The retry loop
around the network call is modelled separately as `call_llm`.) -/
def trunc_llm_prompt (p : List Char) : List Char :=
  if p.length > 900000 then p.take 900000 ++ marker900 else p

/-- `full_content` computed by `analyze_single_doc` for text documents:
the first 120 000 characters, with the explicit marker appended when the
document was cut. -/
def full_content_of (content : List Char) : List Char :=
  if content.length > 120000 then content.take 120000 ++ markerDoc else content

/-- Stage-1 prompt for a text document (`_agent1_analyze`):
`AGENT1_LEVEL1_PROMPT + "\n\n" + (content or "")[:120_000]`. -/
def agent1_prompt_text (content : List Char) : List Char :=
  AGENT1_LEVEL1_PROMPT ++ cs "\n\n" ++ content.take 120000

/-- Stage-2 prompt for a text document (`_agent2_analyze`). -/
def agent2_prompt_text (content : List Char) : List Char :=
  AGENT2_LEVEL2_PROMPT ++ cs "\n\n" ++ content.take 120000

/-- Suffix appended to the stage-1/2 templates for multimodal documents. -/
def mmAnalyzeNote : List Char := cs "\n\n请分析下方文档/图片。"

/-- Stage-1 prompt for a multimodal document. -/
def agent1_prompt_mm : List Char := AGENT1_LEVEL1_PROMPT ++ mmAnalyzeNote

/-- Stage-2 prompt for a multimodal document. -/
def agent2_prompt_mm : List Char := AGENT2_LEVEL2_PROMPT ++ mmAnalyzeNote

/-- `source_content` used by `_agent3_review` in the multimodal branch. -/
def agent3_source_mm : List Char :=
  cs "[源文档为多模态文件，已随请求一并传入，请结合其内容进行评审]"

/-- Stage-3 prompt for a text document (`_agent3_review`): the template with
the source cut at 80 000 and each sub-analysis cut at 60 000 characters. -/
def agent3_prompt_text (source l1 l2 : List Char) : List Char :=
  AGENT3_PRE_SOURCE ++ source.take 80000 ++ AGENT3_PRE_L1 ++ l1.take 60000 ++
    AGENT3_PRE_L2 ++ l2.take 60000 ++ AGENT3_TAIL

/-- Stage-3 prompt for a multimodal document: the fixed attachment note in
the source slot, each sub-analysis cut at 60 000 characters. -/
def agent3_prompt_mm (l1 l2 : List Char) : List Char :=
  AGENT3_PRE_SOURCE ++ agent3_source_mm ++ AGENT3_PRE_L1 ++ l1.take 60000 ++
    AGENT3_PRE_L2 ++ l2.take 60000 ++ AGENT3_TAIL

/-! ### `_read_doc` and the per-document pipeline `analyze_single_doc` -/

/-- Result of one filesystem/library read attempt: decoded text, or the
message of the exception it raised. -/
inductive FsRead where
  | ok (text : List Char)
  | err (msg : List Char)

/-- Lower-cased suffixes of the `MIME_TYPES` table (multimodal documents). -/
def MIME_SUFFIXES : List (List Char) :=
  [cs ".pdf", cs ".png", cs ".jpg", cs ".jpeg", cs ".gif", cs ".webp"]

/-- `_is_multimodal` on the lower-cased suffix. -/
def is_multimodal (ext : List Char) : Bool := ext ∈ MIME_SUFFIXES

/-- `_read_doc`, over the lower-cased suffix and the outcomes of the
possible read operations: `.docx` uses `python-docx` when importable
(otherwise a bracketed install hint), multimodal suffixes read as `""`
(handled by the upload path), anything else is read as text; any raised
exception is encoded as the bracketed message `[读取失败: …]`. -/
def read_doc (pathStr ext : List Char) (docxAvailable : Bool)
    (docxRead fileRead : FsRead) : List Char :=
  if ext = cs ".docx" then
    if docxAvailable then
      match docxRead with
      | .ok t => t
      | .err e => cs "[读取失败: " ++ e ++ cs "]"
    else cs "[需安装 python-docx 以读取 .docx: " ++ pathStr ++ cs "]"
  else if is_multimodal ext then []
  else
    match fileRead with
    | .ok t => t
    | .err e => cs "[读取失败: " ++ e ++ cs "]"

/-- `DocAnalysisResult` (the `doc_path` field is represented by the file
name, which is what every consumer of the field uses). -/
structure DocResult where
  name : List Char
  level1 : List Char
  level2 : List Char
  review : List Char
  scores : List (Option ℚ)
  weighted : ℚ

/-- Placeholder stage text of the skipped path of `analyze_single_doc`. -/
def skipped_level (name : List Char) : List Char :=
  cs "# 分析跳过\n文档无法读取或为空: " ++ name

/-- The skipped `DocAnalysisResult`: placeholder stage texts, empty review,
empty score map (positionally: no dimension present), composite 0. -/
def skippedResult (name : List Char) : DocResult :=
  { name := name, level1 := skipped_level name, level2 := skipped_level name,
    review := [], scores := List.replicate 8 none, weighted := 0 }

/-- `analyze_single_doc`, with the gateway abstracted by deterministic
oracles `gw` (plain-text call, receiving the already-truncated prompt of
`_call_llm`) and `gwf` (attachment call, receiving the document name and
prompt; `_call_llm_with_file` performs no prompt truncation).  The second
component counts the Gateway call sites executed for this document.
`not content.strip()` is modelled as all-whitespace, an exact equivalence. -/
def analyze_single_doc (isMM : Bool) (name content : List Char)
    (gw : List Char → List Char) (gwf : List Char → List Char → List Char) :
    DocResult × Nat :=
  if ¬isMM ∧ (content.all isWsChar ∨ content.head? = some '[') then
    (skippedResult name, 0)
  else
    let full := full_content_of content
    let level1 := if isMM then gwf name agent1_prompt_mm
      else gw (trunc_llm_prompt (agent1_prompt_text full))
    let level2 := if isMM then gwf name agent2_prompt_mm
      else gw (trunc_llm_prompt (agent2_prompt_text full))
    let review := if isMM then gwf name (agent3_prompt_mm level1 level2)
      else gw (trunc_llm_prompt (agent3_prompt_text full level1 level2))
    let parsed := parse_review_scores review
    ({ name := name, level1 := level1, level2 := level2, review := review,
       scores := parsed.1, weighted := parsed.2 }, 3)

/-! ### C9 / C10: the skip test and the multimodal bypass -/

theorem analyze_single_doc_skip (name content : List Char)
    (gw : List Char → List Char) (gwf : List Char → List Char → List Char)
    (h : content.all isWsChar = true ∨ content.head? = some '[') :
    analyze_single_doc false name content gw gwf = (skippedResult name, 0) := by
  unfold analyze_single_doc
  rw [if_pos ⟨by simp, h⟩]

theorem analyze_single_doc_not_skip (name content : List Char)
    (gw : List Char → List Char) (gwf : List Char → List Char → List Char)
    (h : ¬(content.all isWsChar = true ∨ content.head? = some '[')) :
    analyze_single_doc false name content gw gwf =
      (let level1 := gw (trunc_llm_prompt (agent1_prompt_text (full_content_of content)))
       let level2 := gw (trunc_llm_prompt (agent2_prompt_text (full_content_of content)))
       let review := gw (trunc_llm_prompt (agent3_prompt_text (full_content_of content) level1 level2))
       ({ name := name, level1 := level1, level2 := level2, review := review,
          scores := (parse_review_scores review).1,
          weighted := (parse_review_scores review).2 }, 3)) := by
  unfold analyze_single_doc
  rw [if_neg (fun hc => h hc.2)]
  rfl

theorem analyze_single_doc_mm (name content : List Char)
    (gw : List Char → List Char) (gwf : List Char → List Char → List Char) :
    analyze_single_doc true name content gw gwf =
      (let level1 := gwf name agent1_prompt_mm
       let level2 := gwf name agent2_prompt_mm
       let review := gwf name (agent3_prompt_mm level1 level2)
       ({ name := name, level1 := level1, level2 := level2, review := review,
          scores := (parse_review_scores review).1,
          weighted := (parse_review_scores review).2 }, 3)) := by
  unfold analyze_single_doc
  rw [if_neg (fun hc => hc.1 rfl)]
  rfl

/-- C9: a non-multimodal document is routed to the skipped path exactly when
its decoded content is empty/whitespace-only or begins with `[` — `_read_doc`
encodes every read failure as a bracketed message — so a perfectly readable,
non-empty text whose content happens to start with `[` is skipped too, with
zero Gateway calls, empty review and composite 0. -/
theorem c9_text_skip_condition (name content : List Char)
    (gw : List Char → List Char) (gwf : List Char → List Char → List Char) :
    ((analyze_single_doc false name content gw gwf).2 = 0 ↔
      (content.all isWsChar = true ∨ content.head? = some '[')) ∧
    ((content.all isWsChar = true ∨ content.head? = some '[') →
      (analyze_single_doc false name content gw gwf).1 = skippedResult name ∧
      (analyze_single_doc false name content gw gwf).1.review = [] ∧
      (analyze_single_doc false name content gw gwf).1.weighted = 0) ∧
    (∀ p ext e dxr, is_multimodal ext = false → ext ≠ cs ".docx" →
      read_doc p ext true dxr (.err e) = cs "[读取失败: " ++ e ++ cs "]") ∧
    (∀ p dxr fr, read_doc p (cs ".docx") false dxr fr =
      cs "[需安装 python-docx 以读取 .docx: " ++ p ++ cs "]") ∧
    (∀ p e fr, read_doc p (cs ".docx") true (.err e) fr =
      cs "[读取失败: " ++ e ++ cs "]") ∧
    (∀ e p, ((cs "[读取失败: " ++ e ++ cs "]").head? = some '[' ∧
      (cs "[需安装 python-docx 以读取 .docx: " ++ p ++ cs "]").head? = some '[')) := by
  refine ⟨?_, ?_, ?_, ?_, ?_, ?_⟩
  · by_cases hcond : content.all isWsChar = true ∨ content.head? = some '['
    · rw [analyze_single_doc_skip name content gw gwf hcond]
      simpa using hcond
    · rw [analyze_single_doc_not_skip name content gw gwf hcond]
      simpa using hcond
  · intro hcond
    rw [analyze_single_doc_skip name content gw gwf hcond]
    exact ⟨rfl, rfl, rfl⟩
  · intro p ext e dxr hmime hdocx
    simp [read_doc, hmime, hdocx]
  · intro p dxr fr
    simp [read_doc]
  · intro p e fr
    simp [read_doc]
  · intro e p
    constructor <;> rfl

/-- C9 witness: the readable, non-empty content `[abc]` is skipped with zero
calls, and a concrete failing text read yields the bracketed message. -/
theorem c9_text_skip_condition_witness :
    (analyze_single_doc false (cs "a.md") (cs "[abc]") (fun p => p) (fun _ p => p)).2 = 0 ∧
    (analyze_single_doc false (cs "a.md") (cs "[abc]") (fun p => p) (fun _ p => p)).1 =
      skippedResult (cs "a.md") ∧
    read_doc (cs "x") (cs ".md") true (.ok []) (.err (cs "boom")) = cs "[读取失败: boom]" := by
  have h := c9_text_skip_condition (cs "a.md") (cs "[abc]") (fun p => p) (fun _ p => p)
  refine ⟨h.1.mpr (Or.inr (by decide)), (h.2.1 (Or.inr (by decide))).1, ?_⟩
  have h3 := h.2.2.1 (cs "x") (cs ".md") (cs "boom") (.ok []) (by decide) (by decide)
  rw [h3]
  decide

/-- C10: a multimodal document (suffix in the fixed PDF/image MIME set) is
never routed to the skipped path: the unreadable/empty test is applied only
to non-multimodal documents, so all three attachment-upload Gateway calls are
made for every multimodal document regardless of content — the stage texts
are exactly the three oracle responses and the call count is 3, never 0. -/
theorem c10_multimodal_never_skipped (name content : List Char)
    (gw : List Char → List Char) (gwf : List Char → List Char → List Char) :
    (analyze_single_doc true name content gw gwf).2 = 3 ∧
    (analyze_single_doc true name content gw gwf).2 ≠ 0 ∧
    (analyze_single_doc true name content gw gwf).1.level1 = gwf name agent1_prompt_mm ∧
    (analyze_single_doc true name content gw gwf).1.level2 = gwf name agent2_prompt_mm ∧
    (analyze_single_doc true name content gw gwf).1.review =
      gwf name (agent3_prompt_mm (gwf name agent1_prompt_mm) (gwf name agent2_prompt_mm)) ∧
    is_multimodal (cs ".pdf") = true ∧ is_multimodal (cs ".png") = true ∧
    is_multimodal (cs ".jpg") = true ∧ is_multimodal (cs ".jpeg") = true ∧
    is_multimodal (cs ".gif") = true ∧ is_multimodal (cs ".webp") = true ∧
    is_multimodal (cs ".md") = false ∧ is_multimodal (cs ".txt") = false := by
  rw [analyze_single_doc_mm name content gw gwf]
  refine ⟨rfl, by simp, rfl, rfl, rfl, by decide, by decide, by decide, by decide, by decide,
    by decide, by decide, by decide⟩

/-! ### Number/score formatting and the ranking & summary builders
(`_write_ranking_table`, score-summary loop of `analyze_doc_dir`) -/

/-- Decimal digit expansion, fuel-driven so that it stays kernel-computable
(`fuel = n + 1` always suffices since `n / 10 < n` for `n ≥ 10`). -/
def natDigitsAux : Nat → Nat → List Char
  | 0, _ => []
  | fuel + 1, n =>
    if n < 10 then [digitChar n]
    else natDigitsAux fuel (n / 10) ++ [digitChar (n % 10)]

/-- Decimal digits of a natural number, most significant first. -/
def natDigits (n : Nat) : List Char := natDigitsAux (n + 1) n

/-- Python `str()` of the nonnegative floats the pipeline ever prints: all
are multiples of 0.5 (a parsed integer score or a composite), whose rational
normal form has denominator 1 (printed `….0`) or 2 (printed `….5`). -/
def halfRepr (q : ℚ) : List Char :=
  if q.den = 1 then natDigits q.num.toNat ++ cs ".0"
  else natDigits (q.num.toNat / 2) ++ cs ".5"

/-- `str(r.scores.get(name, "-"))` of the ranking table and summary lines:
a present score prints as a float, an absent one as `-`. -/
def scoreCell (o : Option ℚ) : List Char :=
  match o with
  | some v => halfRepr v
  | none => cs "-"

/-- `scores.get(name, 0)` as printed by `_write_score_file`: a present score
prints as a float, an absent one as the integer `0`. -/
def scoreFileCell (o : Option ℚ) : List Char :=
  match o with
  | some v => halfRepr v
  | none => cs "0"

/-- `sep.join(strings)`. -/
def joinSep (sep : List Char) : List (List Char) → List Char
  | [] => []
  | [x] => x
  | x :: y :: xs => x ++ sep ++ joinSep sep (y :: xs)

/-- Stable insertion step for descending order: an element is placed before
the first strictly-smaller key, i.e. after every earlier element with an
equal or larger key. -/
def insertDesc {α : Type} (key : α → ℚ) (a : α) : List α → List α
  | [] => [a]
  | b :: bs => if key b ≤ key a then a :: b :: bs else b :: insertDesc key a bs

/-- `sorted(results, key=..., reverse=True)`.  Python's `sorted` is the
unique stable descending sort by the key, which this insertion sort
implements extensionally. -/
def sortDesc {α : Type} (key : α → ℚ) : List α → List α
  | [] => []
  | a :: as => insertDesc key a (sortDesc key as)

/-- One data row of `_write_ranking_table`:
`| {i} | {name} | {scores joined by " | "} | **{weighted}** |`
(the surrounding header and separator rows are fixed text). -/
def rankingRow (i : Nat) (r : DocResult) : List Char :=
  cs "| " ++ natDigits i ++ cs " | " ++ r.name ++ cs " | " ++
    joinSep (cs " | ") (r.scores.map scoreCell) ++ cs " | **" ++
    halfRepr r.weighted ++ cs "** |"

/-- The data rows of the ranking table: every result — skipped or not — is
sorted by composite descending and given a 1-based rank. -/
def ranking_rows (results : List DocResult) : List (List Char) :=
  (sortDesc (fun r => r.weighted) results).enum.map fun p => rankingRow (p.1 + 1) p.2

/-- One score-summary line of `analyze_doc_dir`:
`- {name}: {scores joined by " | "} | 综合 {weighted}`. -/
def summaryLine (r : DocResult) : List Char :=
  cs "- " ++ r.name ++ cs ": " ++ joinSep (cs " | ") (r.scores.map scoreCell) ++
    cs " | 综合 " ++ halfRepr r.weighted

/-- The per-document score-summary lines handed to the aggregator: every
result, sorted by composite descending. -/
def score_summary_lines (results : List DocResult) : List (List Char) :=
  (sortDesc (fun r => r.weighted) results).map summaryLine

/-- The skip tag tested by `analyze_doc_dir` (`startswith("# 分析跳过")`). -/
def skipTag : List Char := cs "# 分析跳过"

/-- `level1_texts`: stage-1 texts of the results whose stage-1 text is not
tagged as skipped. -/
def level1_texts (results : List DocResult) : List (List Char) :=
  (results.filter fun r => !(skipTag.isPrefixOf r.level1)).map fun r => r.level1

/-- `level2_texts`: stage-2 texts of the results whose stage-2 text is not
tagged as skipped. -/
def level2_texts (results : List DocResult) : List (List Char) :=
  (results.filter fun r => !(skipTag.isPrefixOf r.level2)).map fun r => r.level2

theorem insertDesc_length {α : Type} (key : α → ℚ) (a : α) (l : List α) :
    (insertDesc key a l).length = l.length + 1 := by
  induction l with
  | nil => rfl
  | cons b bs ih =>
    rw [insertDesc]
    split_ifs with h
    · rfl
    · simp [ih]

theorem sortDesc_length {α : Type} (key : α → ℚ) (l : List α) :
    (sortDesc key l).length = l.length := by
  induction l with
  | nil => rfl
  | cons a as ih =>
    rw [sortDesc, insertDesc_length, ih]
    rfl

/-! ### C5: treatment of skipped documents downstream -/

theorem skipTag_prefix_skipped_level (name : List Char) :
    skipTag.isPrefixOf (skipped_level name) = true := by
  rw [List.isPrefixOf_iff_prefix]
  have : skipped_level name = skipTag ++ (cs "\n文档无法读取或为空: " ++ name) := by
    rw [skipped_level]
    rfl
  rw [this]
  exact List.prefix_append _ _

/-- C5 counterexample input: a single empty (hence skipped) document.  The
claim says skipped results are excluded from the ranking table and the
score-summary lines, but the code includes them: the run produces a ranking
row and a summary line for the skipped document (with dash scores and
composite 0.0), while only the merged Level-1/Level-2 inputs exclude it. -/
theorem c5_counterexample :
    ranking_rows [(analyze_single_doc false (cs "a.md") [] (fun p => p) (fun _ p => p)).1] =
      [cs "| 1 | a.md | - | - | - | - | - | - | - | - | **0.0** |"] ∧
    score_summary_lines
        [(analyze_single_doc false (cs "a.md") [] (fun p => p) (fun _ p => p)).1] =
      [cs "- a.md: - | - | - | - | - | - | - | - | 综合 0.0"] ∧
    ranking_rows [(analyze_single_doc false (cs "a.md") [] (fun p => p) (fun _ p => p)).1] ≠ [] ∧
    level1_texts [(analyze_single_doc false (cs "a.md") [] (fun p => p) (fun _ p => p)).1] = [] := by
  refine ⟨?_, ?_, ?_, ?_⟩ <;> decide

/-- C5 (amended): an unreadable/empty document costs zero Gateway calls and
yields placeholder stage texts tagged as skipped; the skipped result is
excluded from the merged Level-1/Level-2 aggregation inputs, but it IS
included — like every result — in the ranking table and in the per-document
score-summary lines (one row/line per result, with `-` score cells and
composite `0.0`). -/
theorem c5_skipped_policy (name content : List Char)
    (gw : List Char → List Char) (gwf : List Char → List Char → List Char)
    (rs : List DocResult)
    (h : content.all isWsChar = true ∨ content.head? = some '[') :
    (analyze_single_doc false name content gw gwf).2 = 0 ∧
    (analyze_single_doc false name content gw gwf).1.level1 = skipped_level name ∧
    (analyze_single_doc false name content gw gwf).1.level2 = skipped_level name ∧
    skipTag.isPrefixOf (skipped_level name) = true ∧
    level1_texts ((analyze_single_doc false name content gw gwf).1 :: rs) = level1_texts rs ∧
    level2_texts ((analyze_single_doc false name content gw gwf).1 :: rs) = level2_texts rs ∧
    (∀ l : List DocResult, (ranking_rows l).length = l.length) ∧
    (∀ l : List DocResult, (score_summary_lines l).length = l.length) := by
  rw [analyze_single_doc_skip name content gw gwf h]
  refine ⟨rfl, rfl, rfl, skipTag_prefix_skipped_level name, ?_, ?_, ?_, ?_⟩
  · rw [level1_texts, level1_texts, List.filter_cons]
    rw [show (!(skipTag.isPrefixOf (skippedResult name).level1)) = false by
      rw [show (skippedResult name).level1 = skipped_level name from rfl,
        skipTag_prefix_skipped_level name]
      rfl]
    simp
  · rw [level2_texts, level2_texts, List.filter_cons]
    rw [show (!(skipTag.isPrefixOf (skippedResult name).level2)) = false by
      rw [show (skippedResult name).level2 = skipped_level name from rfl,
        skipTag_prefix_skipped_level name]
      rfl]
    simp
  · intro l
    rw [ranking_rows, List.length_map, List.enum_length, sortDesc_length]
  · intro l
    rw [score_summary_lines, List.length_map, sortDesc_length]

/-- C5 witness: instantiated at the empty document of the counterexample
input next to an arbitrary second result list. -/
theorem c5_skipped_policy_witness :
    (analyze_single_doc false (cs "b.txt") (cs "   ") (fun p => p) (fun _ p => p)).2 = 0 ∧
    level1_texts [(analyze_single_doc false (cs "b.txt") (cs "   ") (fun p => p) (fun _ p => p)).1] = [] := by
  have h := c5_skipped_policy (cs "b.txt") (cs "   ") (fun p => p) (fun _ p => p) []
    (Or.inl (by decide))
  exact ⟨h.1, h.2.2.2.2.1⟩

/-! ### C6: per-call-site truncation ceilings and markers -/

theorem full_content_take (content : List Char) (h : content.length > 120000) :
    (full_content_of content).take 120000 = content.take 120000 := by
  rw [full_content_of, if_pos h]
  have hlen : (content.take 120000).length = 120000 := by
    rw [List.length_take]
    omega
  exact List.take_left' hlen

/-- C6 (amended): prompts are truncated at the stated per-call-site
ceilings — 900 000 for the assembled `_call_llm` prompt (with the explicit
marker appended on a cut), 120 000 for the document content of stages 1/2,
80 000 for the stage-3 source and 60 000 for each embedded sub-analysis —
but a marker survives only at the 900 000 cut: the stage-1/2 marker added by
`analyze_single_doc` is sliced off again by the agent's own `[:120_000]`
cut, so the stage-1/2 prompt embeds the bare truncated content, and the
stage-3 slices never append a marker. -/
theorem c6_truncation (p content source l1 l2 : List Char) :
    (p.length ≤ 900000 → trunc_llm_prompt p = p) ∧
    (p.length > 900000 →
      trunc_llm_prompt p = p.take 900000 ++ marker900 ∧
      (trunc_llm_prompt p).length = 900000 + marker900.length) ∧
    (content.length > 120000 →
      agent1_prompt_text (full_content_of content) =
        AGENT1_LEVEL1_PROMPT ++ cs "\n\n" ++ content.take 120000 ∧
      agent2_prompt_text (full_content_of content) =
        AGENT2_LEVEL2_PROMPT ++ cs "\n\n" ++ content.take 120000) ∧
    (content.length ≤ 120000 → full_content_of content = content) ∧
    (content.length > 120000 → full_content_of content = content.take 120000 ++ markerDoc) ∧
    agent3_prompt_text source l1 l2 =
      AGENT3_PRE_SOURCE ++ source.take 80000 ++ AGENT3_PRE_L1 ++ l1.take 60000 ++
        AGENT3_PRE_L2 ++ l2.take 60000 ++ AGENT3_TAIL := by
  refine ⟨?_, ?_, ?_, ?_, ?_, rfl⟩
  · intro h
    rw [trunc_llm_prompt, if_neg (by omega)]
  · intro h
    rw [trunc_llm_prompt, if_pos h]
    refine ⟨rfl, ?_⟩
    rw [List.length_append, List.length_take]
    omega
  · intro h
    constructor
    · rw [agent1_prompt_text, full_content_take content h]
    · rw [agent2_prompt_text, full_content_take content h]
  · intro h
    rw [full_content_of, if_neg (by omega)]
  · intro h
    rw [full_content_of, if_pos h]

/-- C6 witness: a 900 001-character prompt is cut at 900 000 with the marker
appended, and a 120 001-character document reaches the stage-1 prompt as its
bare 120 000-character cut. -/
theorem c6_truncation_witness :
    trunc_llm_prompt (List.replicate 900001 'b') =
      List.replicate 900000 'b' ++ marker900 ∧
    agent1_prompt_text (full_content_of (List.replicate 120001 'a')) =
      AGENT1_LEVEL1_PROMPT ++ cs "\n\n" ++ List.replicate 120000 'a' := by
  have h := c6_truncation (List.replicate 900001 'b') (List.replicate 120001 'a') [] [] []
  constructor
  · have h900 := (h.2.1 (by rw [List.length_replicate]; omega)).1
    rw [h900, List.take_replicate]
    congr 2
  · have h120 := (h.2.2.1 (by rw [List.length_replicate]; omega)).1
    rw [h120, List.take_replicate]
    congr 3

theorem getLast?_of_suffix {l m : List Char} (h : l <:+ m) (hne : l ≠ []) :
    m.getLast? = l.getLast? := by
  obtain ⟨t, rfl⟩ := h
  exact List.getLast?_append_of_ne_nil t hne

/-- C6 counterexample input: the 120 001-character all-`a` document is cut
at 120 000 characters for the stage-1 prompt, yet neither truncation marker
appears at the end of the truncated text, contradicting the claim that a
marker is appended whenever content is cut. -/
theorem c6_counterexample :
    (List.replicate 120001 'a').length > 120000 ∧
    agent1_prompt_text (full_content_of (List.replicate 120001 'a')) =
      AGENT1_LEVEL1_PROMPT ++ cs "\n\n" ++ List.replicate 120000 'a' ∧
    ¬ markerDoc <:+ agent1_prompt_text (full_content_of (List.replicate 120001 'a')) ∧
    ¬ marker900 <:+ agent1_prompt_text (full_content_of (List.replicate 120001 'a')) := by
  have hlen : (List.replicate 120001 'a').length > 120000 := by
    rw [List.length_replicate]
    omega
  have heq : agent1_prompt_text (full_content_of (List.replicate 120001 'a')) =
      AGENT1_LEVEL1_PROMPT ++ cs "\n\n" ++ List.replicate 120000 'a' := by
    rw [agent1_prompt_text, full_content_take _ hlen, List.take_replicate]
    congr 3
  have hlast : (agent1_prompt_text (full_content_of (List.replicate 120001 'a'))).getLast? =
      some 'a' := by
    rw [heq]
    rw [show (List.replicate 120000 'a') = List.replicate 119999 'a' ++ ['a'] by
      rw [← List.replicate_succ']]
    rw [← List.append_assoc]
    exact List.getLast?_concat _
  refine ⟨hlen, heq, ?_, ?_⟩
  · intro hsuf
    have := getLast?_of_suffix hsuf (by decide)
    rw [hlast] at this
    have hm : markerDoc.getLast? = some ']' := by decide
    rw [hm] at this
    exact absurd this (by decide)
  · intro hsuf
    have := getLast?_of_suffix hsuf (by decide)
    rw [hlast] at this
    have hm : marker900.getLast? = some ']' := by decide
    rw [hm] at this
    exact absurd this (by decide)

/-! ### C8: credential resolution (`_load_api_key`) -/

/-- First-match lookup in the process environment (`os.environ.get`). -/
def envGet (env : List (List Char × List Char)) (k : List Char) : Option (List Char) :=
  match env with
  | [] => none
  | (k', v) :: rest => if k' = k then some v else envGet rest k

/-- Modelled from python-dotenv (an external dependency of `_load_api_key`):
`load_dotenv(path)` is called with its default `override=False`, which sets
a key from the `.env` file only when the process environment does not
already define it — pre-existing environment variables win. -/
def load_dotenv (env : List (List Char × List Char)) :
    List (List Char × List Char) → List (List Char × List Char)
  | [] => env
  | (k, v) :: rest =>
    load_dotenv (if (envGet env k).isSome then env else env ++ [(k, v)]) rest

/-- The environment lookup tail of `_load_api_key`:
`os.environ.get("GEMINI_API_KEY") or os.environ.get("GOOGLE_API_KEY")`
(Python `or` treats the empty string as falsy). -/
def geminiOrGoogle (env : List (List Char × List Char)) : Option (List Char) :=
  match envGet env (cs "GEMINI_API_KEY") with
  | some v => if v = [] then envGet env (cs "GOOGLE_API_KEY") else some v
  | none => envGet env (cs "GOOGLE_API_KEY")

/-- `_load_api_key`: an explicit (truthy) `--api-key` argument wins;
otherwise the found `.env` file (if any) is loaded without overriding
pre-existing variables, and the key is taken from the resulting
environment.  `dotenvFile` is the content of the first `.env` file found
(or `none` when there is none or python-dotenv is not importable). -/
def load_api_key (apiKey : Option (List Char))
    (env : List (List Char × List Char))
    (dotenvFile : Option (List (List Char × List Char))) : Option (List Char) :=
  match apiKey with
  | some k =>
    if k = [] then
      geminiOrGoogle (match dotenvFile with
        | some entries => load_dotenv env entries
        | none => env)
    else some k
  | none =>
    geminiOrGoogle (match dotenvFile with
      | some entries => load_dotenv env entries
      | none => env)

/-- C8: the claimed (and docstring-stated) priority is explicit argument >
`.env` file > environment variable, but because `load_dotenv` never
overrides an existing variable, a pre-existing environment variable beats
the `.env` value: with both present and no explicit argument the code
returns the environment value, not the configuration-file value.  The
explicit argument does win, and the `.env` value is used only when the
variable was not already set. -/
theorem c8_env_priority_bug :
    load_api_key none [(cs "GEMINI_API_KEY", cs "envval")]
        (some [(cs "GEMINI_API_KEY", cs "fileval")]) = some (cs "envval") ∧
    cs "envval" ≠ cs "fileval" ∧
    load_api_key none [] (some [(cs "GEMINI_API_KEY", cs "fileval")]) =
      some (cs "fileval") ∧
    load_api_key (some (cs "arg")) [(cs "GEMINI_API_KEY", cs "envval")]
        (some [(cs "GEMINI_API_KEY", cs "fileval")]) = some (cs "arg") := by
  refine ⟨?_, ?_, ?_, ?_⟩ <;> decide

/-! ### C7 infrastructure: mismatch robustness of the pattern matcher

To reason about `re.search` over the concatenated score record
(preamble ++ review) we show that a position whose match attempt fails on a
character mismatch keeps failing whatever text is appended, and that
therefore a "mismatch-inert" prefix can be peeled off a search. -/

theorem dropWhile_append_of_ne {p : Char → Bool} {s : List Char} (z : List Char)
    (h : ∃ c ∈ s, p c = false) :
    (s ++ z).dropWhile p = s.dropWhile p ++ z := by
  rw [List.dropWhile_append]
  rw [if_neg]
  intro hemp
  obtain ⟨c, hc, hcp⟩ := h
  have := List.dropWhile_eq_nil_iff.mp (List.isEmpty_iff.mp hemp) c hc
  rw [hcp] at this
  cases this

theorem takeWhile_append_of_ne {p : Char → Bool} {s : List Char} (z : List Char)
    (h : ∃ c ∈ s, p c = false) :
    (s ++ z).takeWhile p = s.takeWhile p := by
  rw [List.takeWhile_append]
  rw [if_neg]
  intro hlen
  obtain ⟨c, hc, hcp⟩ := h
  have hpref : s.takeWhile p <+: s := List.takeWhile_prefix p
  have heq : s.takeWhile p = s := hpref.eq_of_length hlen
  have hmem : c ∈ s.takeWhile p := by
    rw [heq]
    exact hc
  have := List.mem_takeWhile_imp hmem
  rw [hcp] at this
  cases this

theorem tryMatch_nil_ne_mismatch (toks : List RTok) (cap : List Char) :
    tryMatch toks [] cap ≠ .failMismatch := by
  induction toks generalizing cap with
  | nil => simp [tryMatch]
  | cons t ts ih =>
    cases t with
    | lit c => simp [tryMatch]
    | cls cc => simp [tryMatch]
    | ws =>
      rw [tryMatch]
      exact ih cap
    | digitCap => simp [tryMatch]
    | runCap p => simp [tryMatch]

theorem tryMatch_mismatch_cap {toks : List RTok} {s : List Char} {cap : List Char}
    (h : tryMatch toks s cap = .failMismatch) (cap' : List Char) :
    tryMatch toks s cap' = .failMismatch := by
  induction toks generalizing s cap cap' with
  | nil => simp [tryMatch] at h
  | cons t ts ih =>
    cases t with
    | lit c =>
      cases s with
      | nil => simp [tryMatch] at h
      | cons x xs =>
        rw [tryMatch] at h ⊢
        split_ifs at h ⊢ with hx
        · exact ih h cap'
        · rfl
    | cls cc =>
      cases s with
      | nil => simp [tryMatch] at h
      | cons x xs =>
        rw [tryMatch] at h ⊢
        split_ifs at h ⊢ with hx
        · exact ih h cap'
        · rfl
    | ws =>
      rw [tryMatch] at h ⊢
      exact ih h cap'
    | digitCap =>
      cases s with
      | nil => simp [tryMatch] at h
      | cons x xs =>
        rw [tryMatch] at h ⊢
        split_ifs at h ⊢ with hx
        · exact ih h _
        · rfl
    | runCap p =>
      cases s with
      | nil => simp [tryMatch] at h
      | cons x xs =>
        rw [tryMatch] at h ⊢
        split_ifs at h ⊢ with hx
        · exact ih h _
        · rfl

theorem tryMatch_mismatch_append {toks : List RTok} {s : List Char} {cap : List Char}
    (h : tryMatch toks s cap = .failMismatch) (z : List Char) :
    tryMatch toks (s ++ z) cap = .failMismatch := by
  induction toks generalizing s cap with
  | nil => simp [tryMatch] at h
  | cons t ts ih =>
    cases t with
    | lit c =>
      cases s with
      | nil => simp [tryMatch] at h
      | cons x xs =>
        rw [tryMatch] at h
        rw [show (x :: xs) ++ z = x :: (xs ++ z) from rfl, tryMatch]
        split_ifs at h ⊢ with hx
        · exact ih h
        · rfl
    | cls cc =>
      cases s with
      | nil => simp [tryMatch] at h
      | cons x xs =>
        rw [tryMatch] at h
        rw [show (x :: xs) ++ z = x :: (xs ++ z) from rfl, tryMatch]
        split_ifs at h ⊢ with hx
        · exact ih h
        · rfl
    | ws =>
      rw [tryMatch] at h
      rw [tryMatch]
      by_cases hall : ∃ c ∈ s, isWsChar c = false
      · rw [dropWhile_append_of_ne z hall]
        exact ih h
      · exfalso
        have hs : s.dropWhile isWsChar = [] := by
          rw [List.dropWhile_eq_nil_iff]
          intro c hc
          by_contra hcp
          exact hall ⟨c, hc, by revert hcp; cases isWsChar c <;> simp⟩
        rw [hs] at h
        exact tryMatch_nil_ne_mismatch ts cap h
    | digitCap =>
      cases s with
      | nil => simp [tryMatch] at h
      | cons x xs =>
        rw [tryMatch] at h
        rw [show (x :: xs) ++ z = x :: (xs ++ z) from rfl, tryMatch]
        split_ifs at h ⊢ with hx
        · exact ih h
        · rfl
    | runCap p =>
      cases s with
      | nil => simp [tryMatch] at h
      | cons x xs =>
        rw [tryMatch] at h
        rw [show (x :: xs) ++ z = x :: (xs ++ z) from rfl, tryMatch]
        split_ifs at h ⊢ with hx
        · by_cases hall : ∃ c ∈ x :: xs, p c = false
          · rw [show x :: (xs ++ z) = (x :: xs) ++ z from rfl]
            rw [dropWhile_append_of_ne z hall, takeWhile_append_of_ne z hall]
            exact ih h
          · exfalso
            have hs : (x :: xs).dropWhile p = [] := by
              rw [List.dropWhile_eq_nil_iff]
              intro c hc
              by_contra hcp
              exact hall ⟨c, hc, by revert hcp; cases p c <;> simp⟩
            rw [hs] at h
            exact tryMatch_nil_ne_mismatch ts _ h
        · rfl

/-- A text is *inert* for a pattern when every match attempt starting inside
it fails with a character mismatch, whatever text follows. -/
def Inert (pat : List RTok) (A : List Char) : Prop :=
  ∀ u z cap, u ≠ [] → u <:+ A → tryMatch pat (u ++ z) cap = .failMismatch

/-- Decidable sufficient check for inertness: every nonempty suffix of the
text alone already fails with a mismatch. -/
def strictInertB (pat : List RTok) (A : List Char) : Bool :=
  A.tails.all fun u => u.isEmpty || decide (tryMatch pat u [] = .failMismatch)

theorem inert_of_strict {pat : List RTok} {A : List Char}
    (h : strictInertB pat A = true) : Inert pat A := by
  intro u z cap hne hsuf
  have hu : tryMatch pat u [] = .failMismatch := by
    have hm := List.all_eq_true.mp h u ((List.mem_tails _ _).mpr hsuf)
    rcases u with _ | ⟨x, xs⟩
    · exact absurd rfl hne
    · simpa using hm
  exact tryMatch_mismatch_cap (tryMatch_mismatch_append hu z) cap

/-- A text none of whose characters equals the pattern's leading literal is
inert: every attempt dies on its first character. -/
theorem inert_of_head_ne {c : Char} {ts : List RTok} {A : List Char}
    (h : ∀ x ∈ A, x ≠ c) : Inert (.lit c :: ts) A := by
  intro u z cap hne hsuf
  rcases u with _ | ⟨x, xs⟩
  · exact absurd rfl hne
  · have hx : x ≠ c := h x (hsuf.subset (List.mem_cons_self x xs))
    rw [List.cons_append, tryMatch, if_neg hx]

theorem Inert.tail {pat : List RTok} {a : Char} {A : List Char}
    (h : Inert pat (a :: A)) : Inert pat A :=
  fun u z cap hne hsuf => h u z cap hne (hsuf.trans (List.suffix_cons a A))

/-- An inert prefix can be peeled off a leftmost search. -/
theorem searchPat_skip {pat : List RTok} {A : List Char} (R : List Char)
    (h : Inert pat A) : searchPat pat (A ++ R) = searchPat pat R := by
  induction A with
  | nil => rfl
  | cons a A' ih =>
    have h1 : tryMatch pat ((a :: A') ++ R) [] = .failMismatch :=
      h (a :: A') R [] (List.cons_ne_nil a A') List.suffix_rfl
    rw [List.cons_append, searchPat]
    rw [show a :: (A' ++ R) = (a :: A') ++ R from rfl, h1]
    exact ih h.tail

/-! ### The persisted score record (`_write_score_file`) and resume parsing -/

/-- Name of the `i`-th review dimension. -/
def nameOf (i : Nat) : List Char := (REVIEW_DIMENSIONS.getD i ([], 0)).1

/-- The three fallback patterns `_parse_review_scores` tries for dimension `i`. -/
def dimPatsFor (i : Nat) : List (List RTok) := [pat1 i (nameOf i), pat2 (nameOf i), pat3 i]

/-- The resume composite regex `\*\*([\d.]+)\s*/\s*5\*\*` of `analyze_doc_dir`. -/
def compositePat : List RTok :=
  [.lit '*', .lit '*', .runCap isDigitDot, .ws, .lit '/', .ws, .lit '5', .lit '*', .lit '*']

/-- Fixed pieces of the score record written by `_write_score_file`, i.e.
`"\n".join(lines)` with the variable parts (document name, per-dimension
score cells, composite) cut out.  `sfSeg1` … `sfSeg8` each end with the
`- **{name}**（权重{w}%）：` prefix of the next dimension line. -/
def sfSeg0 : List Char := cs "# "

/-- Fixed segment between the document name and the first score cell. -/
def sfSeg1 : List Char := cs " 写作质量评审\n\n## 各维度评分\n\n- **事实准确性**（权重20%）："

/-- Fixed segment between score cells 1 and 2. -/
def sfSeg2 : List Char := cs " 分\n- **来源可信度**（权重15%）："

/-- Fixed segment between score cells 2 and 3. -/
def sfSeg3 : List Char := cs " 分\n- **分析深度与逻辑性**（权重20%）："

/-- Fixed segment between score cells 3 and 4. -/
def sfSeg4 : List Char := cs " 分\n- **客观性与偏见控制**（权重15%）："

/-- Fixed segment between score cells 4 and 5. -/
def sfSeg5 : List Char := cs " 分\n- **全面性与覆盖度**（权重10%）："

/-- Fixed segment between score cells 5 and 6. -/
def sfSeg6 : List Char := cs " 分\n- **时效性与前瞻性**（权重10%）："

/-- Fixed segment between score cells 6 and 7. -/
def sfSeg7 : List Char := cs " 分\n- **清晰度与结构化**（权重5%）："

/-- Fixed segment between score cells 7 and 8. -/
def sfSeg8 : List Char := cs " 分\n- **实用价值与洞察力**（权重5%）："

/-- Fixed segment between the last score cell and the composite `**`. -/
def sfSeg9 : List Char := cs " 分\n\n## 综合评分\n\n"

/-- The `**` opening the composite value. -/
def sfSegStars : List Char := cs "**"

/-- Fixed segment after the composite value, up to the embedded review. -/
def sfSegTail : List Char :=
  cs " / 5**（加权平均，四舍五入至 0.5）\n\n---\n\n## 完整评审内容\n\n"

/-- The full text `_write_score_file` writes for a result with the given
document name, (positional) score map, composite and review text — the
character stream of the Python `"\n".join(lines)`, right-nested at the
variable slots. -/
def score_file_text (docname : List Char) (scores : List (Option ℚ)) (w : ℚ)
    (review : List Char) : List Char :=
  sfSeg0 ++ (docname ++ (sfSeg1 ++ (scoreFileCell (scores.getD 0 none) ++
    (sfSeg2 ++ (scoreFileCell (scores.getD 1 none) ++
    (sfSeg3 ++ (scoreFileCell (scores.getD 2 none) ++
    (sfSeg4 ++ (scoreFileCell (scores.getD 3 none) ++
    (sfSeg5 ++ (scoreFileCell (scores.getD 4 none) ++
    (sfSeg6 ++ (scoreFileCell (scores.getD 5 none) ++
    (sfSeg7 ++ (scoreFileCell (scores.getD 6 none) ++
    (sfSeg8 ++ (scoreFileCell (scores.getD 7 none) ++
    (sfSeg9 ++ (sfSegStars ++ (halfRepr w ++ (sfSegTail ++ review)))))))))))))))))))))

/-- The fixed segments of the score record. -/
def sfFixedSegs : List (List Char) :=
  [sfSeg0, sfSeg1, sfSeg2, sfSeg3, sfSeg4, sfSeg5, sfSeg6, sfSeg7, sfSeg8,
    sfSeg9, sfSegStars, sfSegTail]

/-- Whether a pattern opens with a CJK literal (codepoint ≥ 0x4E00); all 24
dimension patterns do. -/
def patHeadCJK : List RTok → Bool
  | .lit c :: _ => decide (19968 ≤ c.toNat)
  | _ => false

/-! Character-class facts about the variable slots. -/

theorem natDigitsAux_digit :
    ∀ (fuel n : Nat), ∀ c ∈ natDigitsAux fuel n, isDigitChar c = true := by
  intro fuel
  induction fuel with
  | zero => intro n c hc; simp [natDigitsAux] at hc
  | succ f ih =>
    intro n c hc
    rw [natDigitsAux] at hc
    split_ifs at hc with h
    · have hr : c = digitChar n := by simpa using hc
      subst hr
      interval_cases n <;> decide
    · rcases List.mem_append.mp hc with hm | hm
      · exact ih _ c hm
      · have hr : c = digitChar (n % 10) := by simpa using hm
        subst hr
        have h10 : n % 10 < 10 := Nat.mod_lt n (by omega)
        interval_cases h' : n % 10 <;> decide

theorem natDigits_digit (n : Nat) : ∀ c ∈ natDigits n, isDigitChar c = true :=
  natDigitsAux_digit (n + 1) n

theorem natDigits_ne_nil (n : Nat) : natDigits n ≠ [] := by
  rw [natDigits, natDigitsAux]
  split_ifs with h
  · simp
  · simp

theorem isDigitChar_dot (c : Char) (h : isDigitChar c = true) : isDigitDot c = true := by
  rw [isDigitDot, h]
  rfl

theorem isDigitDot_props (c : Char) (h : isDigitDot c = true) :
    c.toNat < 128 ∧ c ≠ '*' := by
  rw [isDigitDot, isDigitChar] at h
  rcases Bool.or_eq_true_iff.mp h with hd | hdot
  · obtain ⟨ha, hb⟩ := Bool.and_eq_true_iff.mp hd
    have ha' : 48 ≤ c.toNat := of_decide_eq_true ha
    have hb' : c.toNat ≤ 57 := of_decide_eq_true hb
    constructor
    · omega
    · intro hc
      subst hc
      simp at ha' hb'
  · have hc : c = '.' := eq_of_beq hdot
    subst hc
    exact ⟨by decide, by decide⟩

theorem halfRepr_digitDot (q : ℚ) : ∀ c ∈ halfRepr q, isDigitDot c = true := by
  intro c hc
  rw [halfRepr] at hc
  split_ifs at hc with h
  · rcases List.mem_append.mp hc with hm | hm
    · exact isDigitChar_dot c (natDigits_digit _ c hm)
    · have h2 : c = '.' ∨ c = '0' := by simpa [cs] using hm
      rcases h2 with rfl | rfl <;> decide
  · rcases List.mem_append.mp hc with hm | hm
    · exact isDigitChar_dot c (natDigits_digit _ c hm)
    · have h2 : c = '.' ∨ c = '5' := by simpa [cs] using hm
      rcases h2 with rfl | rfl <;> decide

theorem halfRepr_ne_nil (q : ℚ) : halfRepr q ≠ [] := by
  rw [halfRepr]
  split_ifs with h <;> exact fun hc => natDigits_ne_nil _ (List.append_eq_nil.mp hc).1

theorem scoreFileCell_digitDot (o : Option ℚ) : ∀ c ∈ scoreFileCell o, isDigitDot c = true := by
  intro c hc
  cases o with
  | none =>
    have : c = '0' := by simpa [scoreFileCell, cs] using hc
    subst this
    decide
  | some v => exact halfRepr_digitDot v c (by simpa [scoreFileCell] using hc)

/-! ### The score record re-parses to the review's scores -/

set_option maxHeartbeats 2000000 in
theorem dim_pats_strict :
    ∀ i, i < 8 → ∀ p ∈ dimPatsFor i, ∀ F ∈ sfFixedSegs, strictInertB p F = true := by
  decide

theorem dim_pats_head : ∀ i, i < 8 → ∀ p ∈ dimPatsFor i, patHeadCJK p = true := by
  decide

theorem comp_pat_strict :
    ∀ F ∈ [sfSeg0, sfSeg1, sfSeg2, sfSeg3, sfSeg4, sfSeg5, sfSeg6, sfSeg7, sfSeg8, sfSeg9],
      strictInertB compositePat F = true := by
  decide

theorem inert_of_cjk_head {pat : List RTok} (hp : patHeadCJK pat = true)
    {A : List Char} (hA : ∀ c ∈ A, c.toNat < 128) : Inert pat A := by
  cases pat with
  | nil => simp [patHeadCJK] at hp
  | cons t ts =>
    cases t with
    | lit c =>
      have hc : 19968 ≤ c.toNat := of_decide_eq_true (by simpa [patHeadCJK] using hp)
      apply inert_of_head_ne
      intro x hx heq
      have hlt := hA x hx
      rw [heq] at hlt
      omega
    | cls cc => simp [patHeadCJK] at hp
    | ws => simp [patHeadCJK] at hp
    | digitCap => simp [patHeadCJK] at hp
    | runCap p => simp [patHeadCJK] at hp

theorem searchPat_score_file_of_cjk {p : List RTok} (hhead : patHeadCJK p = true)
    (hstrict : ∀ F ∈ sfFixedSegs, strictInertB p F = true)
    (docname : List Char) (hdoc : ∀ c ∈ docname, c.toNat < 128)
    (scores : List (Option ℚ)) (w : ℚ) (review : List Char) :
    searchPat p (score_file_text docname scores w review) = searchPat p review := by
  have hseg : ∀ F ∈ sfFixedSegs, Inert p F := fun F hF => inert_of_strict (hstrict F hF)
  have hcell : ∀ o : Option ℚ, Inert p (scoreFileCell o) := fun o =>
    inert_of_cjk_head hhead fun c hc => (isDigitDot_props c (scoreFileCell_digitDot o c hc)).1
  have hhalf : Inert p (halfRepr w) :=
    inert_of_cjk_head hhead fun c hc => (isDigitDot_props c (halfRepr_digitDot w c hc)).1
  have hdn : Inert p docname := inert_of_cjk_head hhead hdoc
  unfold score_file_text
  rw [searchPat_skip _ (hseg sfSeg0 (by rw [sfFixedSegs]; simp)),
    searchPat_skip _ hdn,
    searchPat_skip _ (hseg sfSeg1 (by rw [sfFixedSegs]; simp)),
    searchPat_skip _ (hcell _),
    searchPat_skip _ (hseg sfSeg2 (by rw [sfFixedSegs]; simp)),
    searchPat_skip _ (hcell _),
    searchPat_skip _ (hseg sfSeg3 (by rw [sfFixedSegs]; simp)),
    searchPat_skip _ (hcell _),
    searchPat_skip _ (hseg sfSeg4 (by rw [sfFixedSegs]; simp)),
    searchPat_skip _ (hcell _),
    searchPat_skip _ (hseg sfSeg5 (by rw [sfFixedSegs]; simp)),
    searchPat_skip _ (hcell _),
    searchPat_skip _ (hseg sfSeg6 (by rw [sfFixedSegs]; simp)),
    searchPat_skip _ (hcell _),
    searchPat_skip _ (hseg sfSeg7 (by rw [sfFixedSegs]; simp)),
    searchPat_skip _ (hcell _),
    searchPat_skip _ (hseg sfSeg8 (by rw [sfFixedSegs]; simp)),
    searchPat_skip _ (hcell _),
    searchPat_skip _ (hseg sfSeg9 (by rw [sfFixedSegs]; simp)),
    searchPat_skip _ (hseg sfSegStars (by rw [sfFixedSegs]; simp)),
    searchPat_skip _ hhalf,
    searchPat_skip _ (hseg sfSegTail (by rw [sfFixedSegs]; simp))]

theorem resolveDim_score_file (i : Nat) (hi : i < 8)
    (docname : List Char) (hdoc : ∀ c ∈ docname, c.toNat < 128)
    (scores : List (Option ℚ)) (w : ℚ) (review : List Char) :
    resolveDim i (nameOf i) (score_file_text docname scores w review) =
      resolveDim i (nameOf i) review := by
  have h1 := searchPat_score_file_of_cjk
    (dim_pats_head i hi (pat1 i (nameOf i)) (List.mem_cons_self _ _))
    (dim_pats_strict i hi (pat1 i (nameOf i)) (List.mem_cons_self _ _))
    docname hdoc scores w review
  have h2 := searchPat_score_file_of_cjk
    (dim_pats_head i hi (pat2 (nameOf i)) (List.mem_cons_of_mem _ (List.mem_cons_self _ _)))
    (dim_pats_strict i hi (pat2 (nameOf i)) (List.mem_cons_of_mem _ (List.mem_cons_self _ _)))
    docname hdoc scores w review
  have h3 := searchPat_score_file_of_cjk
    (dim_pats_head i hi (pat3 i)
      (List.mem_cons_of_mem _ (List.mem_cons_of_mem _ (List.mem_cons_self _ _))))
    (dim_pats_strict i hi (pat3 i)
      (List.mem_cons_of_mem _ (List.mem_cons_of_mem _ (List.mem_cons_self _ _))))
    docname hdoc scores w review
  unfold resolveDim
  rw [h1, h2, h3]

theorem parse_review_scores_score_file (docname : List Char)
    (hdoc : ∀ c ∈ docname, c.toNat < 128)
    (scores : List (Option ℚ)) (w : ℚ) (review : List Char) :
    parse_review_scores (score_file_text docname scores w review) =
      parse_review_scores review := by
  have hds : dimScores (score_file_text docname scores w review) = dimScores review := by
    unfold dimScores
    apply List.map_congr_left
    intro pr hpr
    fin_cases hpr
    · exact resolveDim_score_file 0 (by omega) docname hdoc scores w review
    · exact resolveDim_score_file 1 (by omega) docname hdoc scores w review
    · exact resolveDim_score_file 2 (by omega) docname hdoc scores w review
    · exact resolveDim_score_file 3 (by omega) docname hdoc scores w review
    · exact resolveDim_score_file 4 (by omega) docname hdoc scores w review
    · exact resolveDim_score_file 5 (by omega) docname hdoc scores w review
    · exact resolveDim_score_file 6 (by omega) docname hdoc scores w review
    · exact resolveDim_score_file 7 (by omega) docname hdoc scores w review
  simp only [parse_review_scores]
  rw [hds]

/-! ### The composite line of the score record and its resume re-parse -/

theorem takeWhile_all_append {p : Char → Bool} {a : List Char} (b : List Char)
    (h : ∀ c ∈ a, p c = true) : (a ++ b).takeWhile p = a ++ b.takeWhile p := by
  induction a with
  | nil => rfl
  | cons x xs ih =>
    rw [List.cons_append, List.takeWhile_cons_of_pos (h x (List.mem_cons_self x xs)),
      ih fun c hc => h c (List.mem_cons_of_mem x hc), List.cons_append]

theorem dropWhile_all_append {p : Char → Bool} {a : List Char} (b : List Char)
    (h : ∀ c ∈ a, p c = true) : (a ++ b).dropWhile p = b.dropWhile p := by
  induction a with
  | nil => rfl
  | cons x xs ih =>
    rw [List.cons_append, List.dropWhile_cons_of_pos (h x (List.mem_cons_self x xs)),
      ih fun c hc => h c (List.mem_cons_of_mem x hc)]

/-- Numeric value of a digit string (most significant first). -/
def natVal (l : List Char) : Nat := l.foldl (fun a c => a * 10 + digitVal c) 0

/-- Python `float()` restricted to the strings the composite regex can
capture (runs of digits and dots, no sign or exponent): an integer part,
an optional dot and fraction part.  `none` models the `ValueError` raised
on a malformed capture such as `1.2.3`. -/
def pyFloat (s : List Char) : Option ℚ :=
  match s.dropWhile isDigitChar with
  | [] =>
    if (s.takeWhile isDigitChar).isEmpty then none
    else some (natVal (s.takeWhile isDigitChar) : ℚ)
  | c :: frac =>
    if c = '.' then
      if ((s.takeWhile isDigitChar).isEmpty && frac.isEmpty) || !(frac.all isDigitChar) then
        none
      else
        some ((natVal (s.takeWhile isDigitChar) : ℚ) +
          (natVal frac : ℚ) / (10 : ℚ) ^ frac.length)
    else none

/-- `re.search(r"\*\*([\d.]+)\s*/\s*5\*\*", score_txt)`, returning the
captured group. -/
def composite_search (txt : List Char) : Option (List Char) := searchPat compositePat txt

/-- The composite override of the resume branch of `analyze_doc_dir`:
`w = float(m.group(1)) if m else w`.  `none` models the `ValueError` crash
on a malformed capture, which no record written by `_write_score_file`
produces. -/
def resume_weighted (txt : List Char) (parsedW : ℚ) : Option ℚ :=
  match composite_search txt with
  | some cap => pyFloat cap
  | none => some parsedW

theorem composite_match_tail (review cap : List Char) :
    tryMatch [.ws, .lit '/', .ws, .lit '5', .lit '*', .lit '*']
      (sfSegTail ++ review) cap = .found cap := rfl

theorem composite_found (w : ℚ) (review : List Char) :
    searchPat compositePat (sfSegStars ++ (halfRepr w ++ (sfSegTail ++ review))) =
      some (halfRepr w) := by
  rcases hhr : halfRepr w with _ | ⟨d, ds⟩
  · exact absurd hhr (halfRepr_ne_nil w)
  · have hall : ∀ c ∈ d :: ds, isDigitDot c = true := by
      rw [← hhr]
      exact halfRepr_digitDot w
    have hd : isDigitDot d = true := hall d (List.mem_cons_self _ _)
    have hm : tryMatch compositePat
        ('*' :: ('*' :: ((d :: ds) ++ (sfSegTail ++ review)))) [] = .found (d :: ds) := by
      rw [show compositePat = RTok.lit '*' :: RTok.lit '*' :: RTok.runCap isDigitDot ::
        [RTok.ws, RTok.lit '/', RTok.ws, RTok.lit '5', RTok.lit '*', RTok.lit '*'] from rfl]
      rw [tryMatch, if_pos rfl, tryMatch, if_pos rfl]
      rw [show (d :: ds) ++ (sfSegTail ++ review) = d :: (ds ++ (sfSegTail ++ review)) from rfl]
      rw [tryMatch, if_pos hd]
      rw [show d :: (ds ++ (sfSegTail ++ review)) = (d :: ds) ++ (sfSegTail ++ review) from rfl]
      rw [takeWhile_all_append _ hall, dropWhile_all_append _ hall]
      rw [show sfSegTail ++ review = ' ' ::
        (cs "/ 5**（加权平均，四舍五入至 0.5）\n\n---\n\n## 完整评审内容\n\n" ++ review) from rfl]
      rw [List.takeWhile_cons_of_neg (by decide), List.dropWhile_cons_of_neg (by decide)]
      simp only [List.append_nil, List.nil_append]
      exact composite_match_tail review (d :: ds)
    show searchPat compositePat ('*' :: ('*' :: ((d :: ds) ++ (sfSegTail ++ review)))) = _
    rw [searchPat, hm]

theorem composite_search_score_file (docname : List Char)
    (hdoc : ∀ c ∈ docname, c.toNat < 128 ∧ c ≠ '*')
    (scores : List (Option ℚ)) (w : ℚ) (review : List Char) :
    composite_search (score_file_text docname scores w review) = some (halfRepr w) := by
  have hseg : ∀ F ∈ [sfSeg0, sfSeg1, sfSeg2, sfSeg3, sfSeg4, sfSeg5, sfSeg6, sfSeg7,
      sfSeg8, sfSeg9], Inert compositePat F := fun F hF => inert_of_strict (comp_pat_strict F hF)
  have hdn : Inert compositePat docname := by
    have : Inert (RTok.lit '*' :: (RTok.lit '*' :: RTok.runCap isDigitDot ::
        [RTok.ws, RTok.lit '/', RTok.ws, RTok.lit '5', RTok.lit '*', RTok.lit '*'])) docname :=
      inert_of_head_ne fun x hx => (hdoc x hx).2
    exact this
  have hcell : ∀ o : Option ℚ, Inert compositePat (scoreFileCell o) := by
    intro o
    have : Inert (RTok.lit '*' :: (RTok.lit '*' :: RTok.runCap isDigitDot ::
        [RTok.ws, RTok.lit '/', RTok.ws, RTok.lit '5', RTok.lit '*', RTok.lit '*']))
        (scoreFileCell o) :=
      inert_of_head_ne fun x hx => (isDigitDot_props x (scoreFileCell_digitDot o x hx)).2
    exact this
  unfold composite_search score_file_text
  rw [searchPat_skip _ (hseg sfSeg0 (by simp)),
    searchPat_skip _ hdn,
    searchPat_skip _ (hseg sfSeg1 (by simp)),
    searchPat_skip _ (hcell _),
    searchPat_skip _ (hseg sfSeg2 (by simp)),
    searchPat_skip _ (hcell _),
    searchPat_skip _ (hseg sfSeg3 (by simp)),
    searchPat_skip _ (hcell _),
    searchPat_skip _ (hseg sfSeg4 (by simp)),
    searchPat_skip _ (hcell _),
    searchPat_skip _ (hseg sfSeg5 (by simp)),
    searchPat_skip _ (hcell _),
    searchPat_skip _ (hseg sfSeg6 (by simp)),
    searchPat_skip _ (hcell _),
    searchPat_skip _ (hseg sfSeg7 (by simp)),
    searchPat_skip _ (hcell _),
    searchPat_skip _ (hseg sfSeg8 (by simp)),
    searchPat_skip _ (hcell _),
    searchPat_skip _ (hseg sfSeg9 (by simp))]
  exact composite_found w review

/-! ### `float(str(x))` round trip on half-valued composites -/

theorem digitVal_digitChar (n : Nat) (h : n < 10) : digitVal (digitChar n) = n := by
  interval_cases n <;> decide

theorem natVal_append_digit (a : List Char) (d : Char) :
    natVal (a ++ [d]) = natVal a * 10 + digitVal d := by
  rw [natVal, List.foldl_append]
  rfl

theorem natVal_natDigitsAux :
    ∀ fuel n, n < 10 ^ fuel → natVal (natDigitsAux fuel n) = n := by
  intro fuel
  induction fuel with
  | zero =>
    intro n hn
    interval_cases n
    rfl
  | succ f ih =>
    intro n hn
    rw [natDigitsAux]
    split_ifs with h
    · show natVal [digitChar n] = n
      have hv : natVal [digitChar n] = 0 * 10 + digitVal (digitChar n) := rfl
      rw [hv, digitVal_digitChar n h]
      omega
    · rw [natVal_append_digit]
      have hdiv : n / 10 < 10 ^ f := by
        rw [Nat.div_lt_iff_lt_mul (by omega)]
        calc n < 10 ^ (f + 1) := hn
        _ = 10 ^ f * 10 := by ring
      rw [ih (n / 10) hdiv, digitVal_digitChar (n % 10) (Nat.mod_lt n (by omega))]
      omega

theorem natVal_natDigits (n : Nat) : natVal (natDigits n) = n := by
  apply natVal_natDigitsAux
  calc n < 10 ^ n := Nat.lt_pow_self (by omega) n
  _ ≤ 10 ^ (n + 1) := Nat.pow_le_pow_right (by omega) (by omega)

theorem pyFloat_halfRepr (q : ℚ) (h0 : 0 ≤ q) (hden : q.den = 1 ∨ q.den = 2) :
    pyFloat (halfRepr q) = some q := by
  have hnum : 0 ≤ q.num := Rat.num_nonneg.mpr h0
  have hdig : ∀ n : Nat, ∀ c ∈ natDigits n, isDigitChar c = true := natDigits_digit
  rcases hden with h1 | h2
  · rw [halfRepr, if_pos h1]
    have htw : (natDigits q.num.toNat ++ cs ".0").takeWhile isDigitChar =
        natDigits q.num.toNat := by
      rw [takeWhile_all_append _ (hdig _)]
      rw [show (cs ".0").takeWhile isDigitChar = [] from rfl]
      exact List.append_nil _
    have hdw : (natDigits q.num.toNat ++ cs ".0").dropWhile isDigitChar = cs ".0" := by
      rw [dropWhile_all_append _ (hdig _)]
      rfl
    rw [pyFloat, hdw]
    show (if '.' = '.' then _ else none) = some q
    rw [if_pos rfl, htw]
    rw [if_neg]
    · have hval : (natVal (natDigits q.num.toNat) : ℚ) = (q.num : ℚ) := by
        rw [natVal_natDigits]
        exact_mod_cast congrArg Int.cast (Int.toNat_of_nonneg hnum)
      have hq : ((q.num : ℚ)) = q := by
        have hnd := Rat.num_div_den q
        rw [h1] at hnd
        simpa using hnd
      rw [hval, hq, show natVal ['0'] = 0 from rfl]
      norm_num
    · simp only [Bool.or_eq_true, Bool.and_eq_true, Bool.not_eq_true']
      rintro (⟨hemp, -⟩ | hfr)
      · exact absurd (List.isEmpty_iff.mp hemp) (natDigits_ne_nil _)
      · exact absurd hfr (by decide)
  · rw [halfRepr, if_neg (by omega)]
    have htw : (natDigits (q.num.toNat / 2) ++ cs ".5").takeWhile isDigitChar =
        natDigits (q.num.toNat / 2) := by
      rw [takeWhile_all_append _ (hdig _)]
      rw [show (cs ".5").takeWhile isDigitChar = [] from rfl]
      exact List.append_nil _
    have hdw : (natDigits (q.num.toNat / 2) ++ cs ".5").dropWhile isDigitChar = cs ".5" := by
      rw [dropWhile_all_append _ (hdig _)]
      rfl
    rw [pyFloat, hdw]
    show (if '.' = '.' then _ else none) = some q
    rw [if_pos rfl, htw]
    rw [if_neg]
    · have hodd : Odd q.num.toNat := by
        have hcop : q.num.natAbs.Coprime q.den := q.reduced
        rw [h2] at hcop
        have : q.num.natAbs = q.num.toNat := by omega
        rw [this] at hcop
        exact Nat.coprime_two_right.mp hcop
      obtain ⟨m, hm⟩ := hodd
      have hdiv2 : q.num.toNat / 2 = m := by omega
      have hq : ((q.num : ℚ)) / 2 = q := by
        have hnd := Rat.num_div_den q
        rw [h2] at hnd
        simpa using hnd
      have hnum2 : (q.num : ℚ) = 2 * (m : ℚ) + 1 := by
        have hcast : ((q.num.toNat : ℕ) : ℚ) = (q.num : ℚ) := by
          exact_mod_cast congrArg Int.cast (Int.toNat_of_nonneg hnum)
        rw [← hcast, hm]
        push_cast
        ring
      rw [natVal_natDigits, hdiv2]
      rw [show natVal ['5'] = 5 from rfl]
      rw [← hq, hnum2]
      push_cast
      norm_num
      ring
    · simp only [Bool.or_eq_true, Bool.and_eq_true, Bool.not_eq_true']
      rintro (⟨hemp, -⟩ | hfr)
      · exact absurd (List.isEmpty_iff.mp hemp) (natDigits_ne_nil _)
      · exact absurd hfr (by decide)

theorem halfNat_den (k : ℕ) : ((k : ℚ) / 2).den = 1 ∨ ((k : ℚ) / 2).den = 2 := by
  have hdvd : (((k : ℚ) / 2).den : ℤ) ∣ 2 := by
    have h := Rat.den_dvd (k : ℤ) 2
    rw [Rat.divInt_eq_div] at h
    simpa using h
  have hdvd' : ((k : ℚ) / 2).den ∣ 2 := by exact_mod_cast hdvd
  rcases (Nat.dvd_prime Nat.prime_two).mp hdvd' with h | h
  · exact Or.inl h
  · exact Or.inr h

/-- C7: for every analysis result (an extractor output `(scores, w)` for its
review text) written by `_write_score_file` under a plain ASCII file name
without `*`, the persisted record lists the eight dimensions and a composite
line of the literal shape `**X / 5**` where `X` is `str` of a multiple of
0.5 (one decimal digit), and reading the record back on resume — re-running
the extractor on the whole record (whose only pattern matches are inside the
embedded review) plus the composite-line regex and `float` — reconstructs
exactly the score map and composite that were written. -/
theorem c7_score_record_round_trip (docname review : List Char)
    (hdoc : ∀ c ∈ docname, c.toNat < 128 ∧ c ≠ '*') :
    parse_review_scores
        (score_file_text docname (parse_review_scores review).1
          (parse_review_scores review).2 review) = parse_review_scores review ∧
    composite_search
        (score_file_text docname (parse_review_scores review).1
          (parse_review_scores review).2 review) =
      some (halfRepr (parse_review_scores review).2) ∧
    pyFloat (halfRepr (parse_review_scores review).2) =
      some (parse_review_scores review).2 ∧
    resume_weighted
        (score_file_text docname (parse_review_scores review).1
          (parse_review_scores review).2 review) (parse_review_scores review).2 =
      some (parse_review_scores review).2 ∧
    (∃ k : ℕ, k ≤ 10 ∧ (parse_review_scores review).2 = (k : ℚ) / 2) ∧
    (∃ pre post : List Char,
      score_file_text docname (parse_review_scores review).1
          (parse_review_scores review).2 review =
        pre ++ (sfSegStars ++ (halfRepr (parse_review_scores review).2 ++
          (cs " / 5**" ++ post)))) := by
  obtain ⟨k, hk10, hkval⟩ := parse_snd_half review
  have hparse := parse_review_scores_score_file docname (fun c hc => (hdoc c hc).1)
    (parse_review_scores review).1 (parse_review_scores review).2 review
  have hcomp := composite_search_score_file docname hdoc
    (parse_review_scores review).1 (parse_review_scores review).2 review
  have hfloat : pyFloat (halfRepr (parse_review_scores review).2) =
      some (parse_review_scores review).2 := by
    rw [hkval]
    exact pyFloat_halfRepr _ (by positivity) (halfNat_den k)
  refine ⟨hparse, hcomp, hfloat, ?_, ⟨k, hk10, hkval⟩, ?_⟩
  · rw [resume_weighted, hcomp]
    exact hfloat
  · refine ⟨sfSeg0 ++ docname ++ sfSeg1 ++ scoreFileCell ((parse_review_scores review).1.getD 0 none) ++ sfSeg2 ++ scoreFileCell ((parse_review_scores review).1.getD 1 none) ++ sfSeg3 ++ scoreFileCell ((parse_review_scores review).1.getD 2 none) ++ sfSeg4 ++ scoreFileCell ((parse_review_scores review).1.getD 3 none) ++ sfSeg5 ++ scoreFileCell ((parse_review_scores review).1.getD 4 none) ++ sfSeg6 ++ scoreFileCell ((parse_review_scores review).1.getD 5 none) ++ sfSeg7 ++ scoreFileCell ((parse_review_scores review).1.getD 6 none) ++ sfSeg8 ++ scoreFileCell ((parse_review_scores review).1.getD 7 none) ++ sfSeg9,
      cs "（加权平均，四舍五入至 0.5）\n\n---\n\n## 完整评审内容\n\n" ++ review, ?_⟩
    rw [score_file_text]
    rw [show sfSegTail = cs " / 5**" ++
      cs "（加权平均，四舍五入至 0.5）\n\n---\n\n## 完整评审内容\n\n" from rfl]
    simp only [List.append_assoc]

/-- C7 witness: a concrete record for the spec's example review under the
file name `doc.md` re-parses to the scores and composite that were
written. -/
theorem c7_score_record_round_trip_witness :
    parse_review_scores
        (score_file_text (cs "doc.md")
          (parse_review_scores (cs "## 评分汇总
维度1-事实准确性: 5
维度2-来源可信度: 4
维度3-分析深度与逻辑性: 5
维度4-客观性与偏见控制: 4
维度5-全面性与覆盖度: 4
维度6-时效性与前瞻性: 5
维度7-清晰度与结构化: 4
维度8-实用价值与洞察力: 5")).1
          (parse_review_scores (cs "## 评分汇总
维度1-事实准确性: 5
维度2-来源可信度: 4
维度3-分析深度与逻辑性: 5
维度4-客观性与偏见控制: 4
维度5-全面性与覆盖度: 4
维度6-时效性与前瞻性: 5
维度7-清晰度与结构化: 4
维度8-实用价值与洞察力: 5")).2 (cs "## 评分汇总
维度1-事实准确性: 5
维度2-来源可信度: 4
维度3-分析深度与逻辑性: 5
维度4-客观性与偏见控制: 4
维度5-全面性与覆盖度: 4
维度6-时效性与前瞻性: 5
维度7-清晰度与结构化: 4
维度8-实用价值与洞察力: 5")) = parse_review_scores (cs "## 评分汇总
维度1-事实准确性: 5
维度2-来源可信度: 4
维度3-分析深度与逻辑性: 5
维度4-客观性与偏见控制: 4
维度5-全面性与覆盖度: 4
维度6-时效性与前瞻性: 5
维度7-清晰度与结构化: 4
维度8-实用价值与洞察力: 5") := by
  exact (c7_score_record_round_trip (cs "doc.md") _ (by decide)).1

/-! ### C3: the resume branch of `analyze_doc_dir` -/

/-- A document of the input directory: stable stem (artifact key), file
name, modality and decoded text content. -/
structure DocSpec where
  stem : List Char
  name : List Char
  isMM : Bool
  content : List Char

/-- The artifact store: stem ↦ (Level-1 text, Level-2 text, score record),
modelling the three files `{stem}_L1.md`, `{stem}_L2.md`,
`{stem}_score.md`. -/
def Store : Type := List Char → Option (List Char × List Char × List Char)

/-- Writing the three artifact files of one document. -/
def store_set (st : Store) (k : List Char) (v : List Char × List Char × List Char) : Store :=
  fun k' => if k' = k then some v else st k'

/-- The fresh (non-resumed) outcome for a document. -/
def freshOutcome (gw : List Char → List Char) (gwf : List Char → List Char → List Char)
    (d : DocSpec) : DocResult × Nat :=
  analyze_single_doc d.isMM d.name d.content gw gwf

/-- The artifact triple the fresh path persists for a document
(`l1_path.write_text`, `l2_path.write_text`, `_write_score_file`). -/
def freshTriple (gw : List Char → List Char) (gwf : List Char → List Char → List Char)
    (d : DocSpec) : List Char × List Char × List Char :=
  let r := (freshOutcome gw gwf d).1
  (r.level1, r.level2, score_file_text d.name r.scores r.weighted r.review)

/-- The loop body of `analyze_doc_dir` for one document: with resume enabled
and all three artifacts present, the result is reconstructed by re-running
the extractor on the score record and overriding the composite with the
`**X/5**` regex, making zero Gateway calls and leaving the store unchanged
(`none` from `resume_weighted`, i.e. a `float()` crash, falls back to the
parsed composite here; it is unreachable for records this pipeline writes);
otherwise the document is analyzed afresh and its three artifacts written. -/
def process_doc (resume : Bool) (gw : List Char → List Char)
    (gwf : List Char → List Char → List Char) (st : Store) (d : DocSpec) :
    (DocResult × Nat) × Store :=
  match (if resume then st d.stem else none) with
  | some t =>
    let parsed := parse_review_scores t.2.2
    let w := match resume_weighted t.2.2 parsed.2 with
      | some w => w
      | none => parsed.2
    (({ name := d.name, level1 := t.1, level2 := t.2.1, review := [],
        scores := parsed.1, weighted := w }, 0), st)
  | none =>
    let rk := analyze_single_doc d.isMM d.name d.content gw gwf
    ((rk.1, rk.2),
      store_set st d.stem
        (rk.1.level1, rk.1.level2, score_file_text d.name rk.1.scores rk.1.weighted rk.1.review))

/-- The document loop of `analyze_doc_dir`: sequential, threading the
store; the second components count the Gateway calls of each document. -/
def run_docs (resume : Bool) (gw : List Char → List Char)
    (gwf : List Char → List Char → List Char) :
    Store → List DocSpec → List (DocResult × Nat) × Store
  | st, [] => ([], st)
  | st, d :: ds =>
    let pd := process_doc resume gw gwf st d
    let rest := run_docs resume gw gwf pd.2 ds
    (pd.1 :: rest.1, rest.2)

theorem analyze_single_doc_name (isMM : Bool) (name content : List Char)
    (gw : List Char → List Char) (gwf : List Char → List Char → List Char) :
    (analyze_single_doc isMM name content gw gwf).1.name = name := by
  unfold analyze_single_doc
  split_ifs <;> rfl

/-- The scores/composite stored in any `analyze_single_doc` result are the
extractor's output on its review text (for the skipped result, the empty
review parses to the empty map and sentinel 0). -/
theorem analyze_single_doc_parse (isMM : Bool) (name content : List Char)
    (gw : List Char → List Char) (gwf : List Char → List Char → List Char) :
    (analyze_single_doc isMM name content gw gwf).1.scores =
      (parse_review_scores (analyze_single_doc isMM name content gw gwf).1.review).1 ∧
    (analyze_single_doc isMM name content gw gwf).1.weighted =
      (parse_review_scores (analyze_single_doc isMM name content gw gwf).1.review).2 := by
  unfold analyze_single_doc
  split_ifs <;> exact ⟨rfl, rfl⟩

theorem run_docs_false_results (gw : List Char → List Char)
    (gwf : List Char → List Char → List Char) :
    ∀ (docs : List DocSpec) (st : Store),
      (run_docs false gw gwf st docs).1 = docs.map (freshOutcome gw gwf) := by
  intro docs
  induction docs with
  | nil => intro st; rfl
  | cons d ds ih =>
    intro st
    rw [run_docs, List.map_cons]
    rw [ih]
    rfl

theorem run_docs_false_store_other (gw : List Char → List Char)
    (gwf : List Char → List Char → List Char) :
    ∀ (docs : List DocSpec) (st : Store) (k : List Char),
      (∀ d ∈ docs, d.stem ≠ k) → (run_docs false gw gwf st docs).2 k = st k := by
  intro docs
  induction docs with
  | nil => intro st k _; rfl
  | cons d ds ih =>
    intro st k hk
    rw [run_docs]
    rw [ih _ k fun d' hd' => hk d' (List.mem_cons_of_mem d hd')]
    show store_set st d.stem _ k = st k
    rw [store_set, if_neg]
    intro hkk
    exact hk d (List.mem_cons_self d ds) (hkk ▸ rfl)

theorem run_docs_false_store_lookup (gw : List Char → List Char)
    (gwf : List Char → List Char → List Char) :
    ∀ (docs : List DocSpec) (st : Store) (d : DocSpec), d ∈ docs →
      (docs.map fun x => x.stem).Nodup →
      (run_docs false gw gwf st docs).2 d.stem = some (freshTriple gw gwf d) := by
  intro docs
  induction docs with
  | nil => intro st d hd; exact absurd hd (List.not_mem_nil d)
  | cons e es ih =>
    intro st d hd hnd
    rw [List.map_cons, List.nodup_cons] at hnd
    obtain ⟨hnotin, hnd'⟩ := hnd
    rcases List.mem_cons.mp hd with rfl | hmem
    · rw [run_docs]
      have hothers : ∀ d' ∈ es, d'.stem ≠ d.stem := by
        intro d' hd' heq
        exact hnotin (heq ▸ List.mem_map_of_mem (fun x => x.stem) hd')
      rw [run_docs_false_store_other gw gwf es _ d.stem hothers]
      show store_set st d.stem _ d.stem = _
      rw [store_set, if_pos rfl]
      rfl
    · rw [run_docs]
      exact ih _ d hmem hnd'

/-- The result the resume branch reconstructs for a document whose persisted
triple is the one a fresh run writes: the fresh result with the review text
left empty (the resume branch sets `review=\x22\x22`). -/
def resumeResult (gw : List Char → List Char) (gwf : List Char → List Char → List Char)
    (d : DocSpec) : DocResult :=
  { name := d.name, level1 := (freshOutcome gw gwf d).1.level1,
    level2 := (freshOutcome gw gwf d).1.level2, review := [],
    scores := (freshOutcome gw gwf d).1.scores,
    weighted := (freshOutcome gw gwf d).1.weighted }

/-- Resume reconstruction of one document whose persisted triple is the one
a fresh run writes: zero Gateway calls, the store untouched, and a result
equal to the fresh one except that the review text is not re-read. -/
theorem process_doc_resume (gw : List Char → List Char)
    (gwf : List Char → List Char → List Char) (st : Store) (d : DocSpec)
    (hst : st d.stem = some (freshTriple gw gwf d))
    (hname : ∀ c ∈ d.name, c.toNat < 128 ∧ c ≠ '*') :
    process_doc true gw gwf st d = ((resumeResult gw gwf d, 0), st) := by
  unfold resumeResult
  obtain ⟨hsc, hwt⟩ := analyze_single_doc_parse d.isMM d.name d.content gw gwf
  have hparse := parse_review_scores_score_file d.name (fun c hc => (hname c hc).1)
    (freshOutcome gw gwf d).1.scores (freshOutcome gw gwf d).1.weighted
    (freshOutcome gw gwf d).1.review
  have hcomp := composite_search_score_file d.name hname
    (freshOutcome gw gwf d).1.scores (freshOutcome gw gwf d).1.weighted
    (freshOutcome gw gwf d).1.review
  obtain ⟨k, hk10, hkval⟩ := parse_snd_half (freshOutcome gw gwf d).1.review
  have hsc' : (freshOutcome gw gwf d).1.scores =
      (parse_review_scores (freshOutcome gw gwf d).1.review).1 := hsc
  have hwt' : (freshOutcome gw gwf d).1.weighted =
      (parse_review_scores (freshOutcome gw gwf d).1.review).2 := hwt
  have hfloat : pyFloat (halfRepr (freshOutcome gw gwf d).1.weighted) =
      some (freshOutcome gw gwf d).1.weighted := by
    rw [hwt', hkval]
    exact pyFloat_halfRepr _ (by positivity) (halfNat_den k)
  have hp2 : parse_review_scores (freshTriple gw gwf d).2.2 =
      parse_review_scores (freshOutcome gw gwf d).1.review := hparse
  have hrw : resume_weighted (freshTriple gw gwf d).2.2
      (parse_review_scores (freshOutcome gw gwf d).1.review).2 =
      some (freshOutcome gw gwf d).1.weighted := by
    rw [resume_weighted]
    rw [show composite_search (freshTriple gw gwf d).2.2 =
      some (halfRepr (freshOutcome gw gwf d).1.weighted) from hcomp]
    exact hfloat
  unfold process_doc
  rw [show (if true = true then st d.stem else none) = st d.stem from rfl]
  rw [hst]
  simp only [hp2, hrw]
  rw [← hsc']
  rfl

/-- A resume run over a store in which every document already resolves:
each document contributes its reconstructed result with zero calls and the
store is never modified. -/
theorem run_docs_resume_all (gw : List Char → List Char)
    (gwf : List Char → List Char → List Char) (f : DocSpec → DocResult) :
    ∀ (docs : List DocSpec) (st : Store),
      (∀ d ∈ docs, process_doc true gw gwf st d = ((f d, 0), st)) →
      run_docs true gw gwf st docs = (docs.map fun d => (f d, 0), st) := by
  intro docs
  induction docs with
  | nil => intro st _; rfl
  | cons d ds ih =>
    intro st h
    have hd := h d (List.mem_cons_self d ds)
    have hrest := ih st fun d' hd' => h d' (List.mem_cons_of_mem d hd')
    rw [run_docs, hd]
    show ((f d, 0) :: (run_docs true gw gwf st ds).1,
      (run_docs true gw gwf st ds).2) = _
    rw [hrest, List.map_cons]

/-- The sort key and row/line builders of `analyze_doc_dir` depend only on a
result's name, score map and composite. -/
def rowKey (r : DocResult) : List Char × List (Option ℚ) × ℚ :=
  (r.name, r.scores, r.weighted)

theorem insertDesc_map {α β : Type} (g : α → β) (k : α → ℚ) (q : β → ℚ)
    (hk : ∀ a, q (g a) = k a) (a : α) :
    ∀ l : List α, (insertDesc k a l).map g = insertDesc q (g a) (l.map g) := by
  intro l
  induction l with
  | nil => rfl
  | cons b bs ih =>
    simp only [insertDesc, List.map_cons, hk a, hk b]
    by_cases hle : k b ≤ k a
    · rw [if_pos hle, if_pos hle, List.map_cons, List.map_cons]
    · rw [if_neg hle, if_neg hle, List.map_cons, ih]

theorem sortDesc_map {α β : Type} (g : α → β) (k : α → ℚ) (q : β → ℚ)
    (hk : ∀ a, q (g a) = k a) :
    ∀ l : List α, (sortDesc k l).map g = sortDesc q (l.map g) := by
  intro l
  induction l with
  | nil => rfl
  | cons a as ih =>
    simp only [sortDesc, List.map_cons]
    rw [insertDesc_map g k q hk, ih]

theorem map_of_rowKey_eq {β : Type} (f : DocResult → β)
    (hf : ∀ r r' : DocResult, rowKey r = rowKey r' → f r = f r') :
    ∀ rs fs : List DocResult, rs.map rowKey = fs.map rowKey →
      rs.map f = fs.map f := by
  intro rs
  induction rs with
  | nil =>
    intro fs h
    cases fs with
    | nil => rfl
    | cons r' fs' => simp at h
  | cons r rs ih =>
    intro fs h
    cases fs with
    | nil => simp at h
    | cons r' fs' =>
      rw [List.map_cons, List.map_cons] at h
      obtain ⟨h1, h2⟩ := List.cons_eq_cons.mp h
      rw [List.map_cons, List.map_cons, hf r r' h1, ih fs' h2]

theorem enumFrom_map_of_rowKey_eq {β : Type} (F : Nat → DocResult → β)
    (hF : ∀ (i : Nat) (r r' : DocResult), rowKey r = rowKey r' → F i r = F i r') :
    ∀ (rs fs : List DocResult) (n : Nat), rs.map rowKey = fs.map rowKey →
      (rs.enumFrom n).map (fun p => F p.1 p.2) =
        (fs.enumFrom n).map (fun p => F p.1 p.2) := by
  intro rs
  induction rs with
  | nil =>
    intro fs n h
    cases fs with
    | nil => rfl
    | cons r' fs' => simp at h
  | cons r rs ih =>
    intro fs n h
    cases fs with
    | nil => simp at h
    | cons r' fs' =>
      rw [List.map_cons, List.map_cons] at h
      obtain ⟨h1, h2⟩ := List.cons_eq_cons.mp h
      simp only [List.enumFrom_cons, List.map_cons]
      rw [hF n r r' h1, ih fs' (n + 1) h2]

theorem rankingRow_rowKey (i : Nat) (r r' : DocResult) (h : rowKey r = rowKey r') :
    rankingRow i r = rankingRow i r' := by
  have h1 : r.name = r'.name := congrArg Prod.fst h
  have h2 : r.scores = r'.scores := congrArg (fun p => p.2.1) h
  have h3 : r.weighted = r'.weighted := congrArg (fun p => p.2.2) h
  rw [rankingRow, rankingRow, h1, h2, h3]

theorem summaryLine_rowKey (r r' : DocResult) (h : rowKey r = rowKey r') :
    summaryLine r = summaryLine r' := by
  have h1 : r.name = r'.name := congrArg Prod.fst h
  have h2 : r.scores = r'.scores := congrArg (fun p => p.2.1) h
  have h3 : r.weighted = r'.weighted := congrArg (fun p => p.2.2) h
  rw [summaryLine, summaryLine, h1, h2, h3]

theorem sortDesc_rowKey_congr (rs fs : List DocResult)
    (h : rs.map rowKey = fs.map rowKey) :
    (sortDesc (fun r => r.weighted) rs).map rowKey =
      (sortDesc (fun r => r.weighted) fs).map rowKey := by
  rw [sortDesc_map rowKey (fun r => r.weighted) (fun p => p.2.2) (fun r => rfl),
    sortDesc_map rowKey (fun r => r.weighted) (fun p => p.2.2) (fun r => rfl), h]

theorem ranking_rows_congr (rs fs : List DocResult)
    (h : rs.map rowKey = fs.map rowKey) : ranking_rows rs = ranking_rows fs := by
  have hs := sortDesc_rowKey_congr rs fs h
  rw [ranking_rows, ranking_rows]
  show ((sortDesc (fun r => r.weighted) rs).enumFrom 0).map
      (fun p => rankingRow (p.1 + 1) p.2) = _
  rw [enumFrom_map_of_rowKey_eq (fun i r => rankingRow (i + 1) r)
    (fun i r r' hk => rankingRow_rowKey (i + 1) r r' hk) _ _ 0 hs]
  rfl

theorem score_summary_lines_congr (rs fs : List DocResult)
    (h : rs.map rowKey = fs.map rowKey) :
    score_summary_lines rs = score_summary_lines fs := by
  have hs := sortDesc_rowKey_congr rs fs h
  rw [score_summary_lines, score_summary_lines]
  exact map_of_rowKey_eq summaryLine summaryLine_rowKey _ _ hs

/-- C3: resume idempotence. After a from-scratch run over documents with
distinct stems and ASCII star-free display names, a second run with resume
enabled finds all three persisted artifacts for every document and (i)
returns exactly the reconstructed results with zero Gateway calls per
document, leaving the store untouched, (ii) reconstructs for every document
the same name, score map and composite as the fresh run (the review text is
left empty), and (iii) produces the identical ranking-table rows and
score-summary lines, hence the same relative ranking. -/
theorem c3_resume_idempotent (gw : List Char → List Char)
    (gwf : List Char → List Char → List Char) (st0 : Store) (docs : List DocSpec)
    (hnd : (docs.map fun d => d.stem).Nodup)
    (hname : ∀ d ∈ docs, ∀ c ∈ d.name, c.toNat < 128 ∧ c ≠ '*') :
    run_docs true gw gwf (run_docs false gw gwf st0 docs).2 docs =
      (docs.map fun d => (resumeResult gw gwf d, 0),
        (run_docs false gw gwf st0 docs).2) ∧
    (∀ p ∈ (run_docs true gw gwf (run_docs false gw gwf st0 docs).2 docs).1,
      p.2 = 0) ∧
    ((run_docs true gw gwf (run_docs false gw gwf st0 docs).2 docs).1.map
        fun p => rowKey p.1) =
      ((run_docs false gw gwf st0 docs).1.map fun p => rowKey p.1) ∧
    ranking_rows
        ((run_docs true gw gwf (run_docs false gw gwf st0 docs).2 docs).1.map
          Prod.fst) =
      ranking_rows ((run_docs false gw gwf st0 docs).1.map Prod.fst) ∧
    score_summary_lines
        ((run_docs true gw gwf (run_docs false gw gwf st0 docs).2 docs).1.map
          Prod.fst) =
      score_summary_lines ((run_docs false gw gwf st0 docs).1.map Prod.fst) := by
  have hlook : ∀ d ∈ docs,
      (run_docs false gw gwf st0 docs).2 d.stem = some (freshTriple gw gwf d) :=
    fun d hd => run_docs_false_store_lookup gw gwf docs st0 d hd hnd
  have hproc : ∀ d ∈ docs, process_doc true gw gwf (run_docs false gw gwf st0 docs).2 d =
      ((resumeResult gw gwf d, 0), (run_docs false gw gwf st0 docs).2) :=
    fun d hd => process_doc_resume gw gwf _ d (hlook d hd) (hname d hd)
  have hrun := run_docs_resume_all gw gwf (resumeResult gw gwf) docs _ hproc
  have hkeys : ((run_docs true gw gwf (run_docs false gw gwf st0 docs).2 docs).1.map
      fun p => rowKey p.1) = ((run_docs false gw gwf st0 docs).1.map fun p => rowKey p.1) := by
    rw [hrun, run_docs_false_results, List.map_map, List.map_map]
    refine List.map_congr_left fun d hd => ?_
    have hn : (freshOutcome gw gwf d).1.name = d.name :=
      analyze_single_doc_name d.isMM d.name d.content gw gwf
    simp only [Function.comp_apply, rowKey, resumeResult, hn]
  have hkeys' : ((run_docs true gw gwf (run_docs false gw gwf st0 docs).2 docs).1.map
        Prod.fst).map rowKey =
      ((run_docs false gw gwf st0 docs).1.map Prod.fst).map rowKey := by
    rw [List.map_map, List.map_map]
    exact hkeys
  refine ⟨hrun, ?_, hkeys, ranking_rows_congr _ _ hkeys',
    score_summary_lines_congr _ _ hkeys'⟩
  intro p hp
  rw [hrun] at hp
  obtain ⟨d, hd, rfl⟩ := List.mem_map.mp hp
  rfl

/-- Concrete instance of the resume-idempotence theorem: one text document
with stem `a`, name `n.md`, content `x`, a fixed two-oracle Gateway and the
empty store. -/
theorem c3_resume_idempotent_witness :
    (([⟨cs "a", cs "n.md", false, cs "x"⟩].map fun d => DocSpec.stem d).Nodup) ∧
    (∀ d ∈ [(⟨cs "a", cs "n.md", false, cs "x"⟩ : DocSpec)],
      ∀ c ∈ DocSpec.name d, c.toNat < 128 ∧ c ≠ '*') ∧
    (∀ p ∈ (run_docs true (fun _ => cs "r") (fun _ _ => cs "r")
        (run_docs false (fun _ => cs "r") (fun _ _ => cs "r") (fun _ => none)
          [⟨cs "a", cs "n.md", false, cs "x"⟩]).2
        [⟨cs "a", cs "n.md", false, cs "x"⟩]).1, p.2 = 0) ∧
    ranking_rows
        ((run_docs true (fun _ => cs "r") (fun _ _ => cs "r")
          (run_docs false (fun _ => cs "r") (fun _ _ => cs "r") (fun _ => none)
            [⟨cs "a", cs "n.md", false, cs "x"⟩]).2
          [⟨cs "a", cs "n.md", false, cs "x"⟩]).1.map Prod.fst) =
      ranking_rows ((run_docs false (fun _ => cs "r") (fun _ _ => cs "r")
        (fun _ => none) [⟨cs "a", cs "n.md", false, cs "x"⟩]).1.map Prod.fst) := by
  have h := c3_resume_idempotent (fun _ => cs "r") (fun _ _ => cs "r")
    (fun _ => none) [⟨cs "a", cs "n.md", false, cs "x"⟩]
    (by decide) (by decide)
  exact ⟨by decide, by decide, h.2.1, h.2.2.2.1⟩

end BuildSkill
